import Mathlib

/-!
# cosmos-exporter: unit conversion, denom resolution, start-up and handlers

A shallow embedding of the parts of the exporter that its specification talks
about (`utils.go`, `config.go`, `network.go`, `main.go`, `general.go`,
`gravity-bridge.go`), followed by theorems about them.

Conventions of the embedding:

* a `float64` is a value of `F64`: NaN, a signed infinity, a signed zero, or a
  non-zero finite value carried as the rational number it denotes;
* a `*big.Int` is an `ℤ`; a `*big.Float` is a `BigFloat` whose mantissa and
  exponent are carried together as the rational magnitude they denote.  The
  exponent range of `big.Float` (32 bits) is not represented: it is only left
  by integers of more than `2^31` bits;
* a Go panic is the error of `Except String`;
* the package-level variable `config` is passed explicitly;
* a handler's tasks are functions returning their gauge writes; the goroutines and the
  wait group are treated separately, as an interleaving of moves (`Handling`).
-/

namespace CosmosExporter

/-! ## float64 and rounding -/

/-- A `float64` value. `fin q` is the non-zero finite value `q`. -/
inductive F64 where
  | nan
  | inf (neg : Bool)
  | zero (neg : Bool)
  | fin (q : ℚ)
  deriving DecidableEq

/-- Nearest integer to `t`, ties to the even neighbour. -/
def roundHalfEven (t : ℚ) : ℤ :=
  let k := ⌊t⌋
  let r := t - k
  if r < 1 / 2 then k else if 1 / 2 < r then k + 1 else if k % 2 = 0 then k else k + 1

/-- Binary exponent of a positive magnitude in the convention of `big.Float`
(mantissa in `[0.5, 1)`): the `e` with `2^(e-1) ≤ q < 2^e`. -/
def binExp (q : ℚ) : ℤ := Int.log 2 q + 1

/-- Embedding of `Float.round` in mode `ToNearestEven`: the positive magnitude `q` rounded
to `prec` mantissa bits. -/
def roundPrec (prec : ℕ) (q : ℚ) : ℚ :=
  roundHalfEven (q / 2 ^ (binExp q - prec)) * 2 ^ (binExp q - prec)

/-- Magnitude with its sign bit applied. -/
def signed (neg : Bool) (m : ℚ) : ℚ := if neg then -m else m

/-- Embedding of `math.MaxFloat64`. -/
def maxFloat64 : ℚ := (2 ^ 53 - 1) * 2 ^ 971

/-- Embedding of `math.SmallestNonzeroFloat64`. -/
def smallestNonzeroFloat64 : ℚ := 2 ^ (-1074 : ℤ)

/-! ## math/big -/

/-- The `form` field of a `big.Float`. -/
inductive Form where
  | zero
  | finite
  | inf
  deriving DecidableEq

/-- A `big.Float`: precision, form, sign, and the magnitude `0.mant × 2^exp`
(meaningful when the form is `finite`). -/
structure BigFloat where
  prec : ℕ
  form : Form
  neg : Bool
  mag : ℚ
  deriving DecidableEq

namespace BigFloat

/-- The value of `new(big.Float)`: precision 0, value +0. -/
def new : BigFloat := { prec := 0, form := .zero, neg := false, mag := 0 }

/-- Embedding of `(*big.Int).BitLen`. -/
def bitLen (x : ℤ) : ℕ := Nat.size x.natAbs

/-- Embedding of `(*big.Float).SetInt`: a zero precision becomes `max(x.BitLen(), 64)`; the
value is `x` rounded to the precision. -/
def SetInt (z : BigFloat) (x : ℤ) : BigFloat :=
  let bits := bitLen x
  let prec := if z.prec = 0 then max bits 64 else z.prec
  if x = 0 then { prec := prec, form := .zero, neg := false, mag := 0 }
  else { prec := prec, form := .finite, neg := decide (x < 0), mag := roundPrec prec |(x : ℚ)| }

/-- Embedding of `(*big.Float).SetFloat64`: a zero precision becomes 53; panics with
`ErrNaN` on NaN. -/
def SetFloat64 (z : BigFloat) (x : F64) : Except String BigFloat :=
  let prec := if z.prec = 0 then 53 else z.prec
  match x with
  | .nan => .error "ErrNaN: Float.SetFloat64(NaN)"
  | .zero neg => .ok { prec := prec, form := .zero, neg := neg, mag := 0 }
  | .inf neg => .ok { prec := prec, form := .inf, neg := neg, mag := 0 }
  | .fin q =>
    .ok { prec := prec, form := .finite, neg := decide (q < 0), mag := roundPrec prec |q| }

/-- Embedding of `(*big.Float).Quo`: a zero precision of `z` becomes the larger of the
operands' precisions; the quotient of two finite values is rounded to it;
0/0 and Inf/Inf panic with `ErrNaN`. -/
def Quo (z x y : BigFloat) : Except String BigFloat :=
  let prec := if z.prec = 0 then max x.prec y.prec else z.prec
  let neg := x.neg != y.neg
  if x.form = .finite ∧ y.form = .finite then
    .ok { prec := prec, form := .finite, neg := neg, mag := roundPrec prec (x.mag / y.mag) }
  else if (x.form = .zero ∧ y.form = .zero) ∨ (x.form = .inf ∧ y.form = .inf) then
    .error "ErrNaN: division of zero by zero or infinity by infinity"
  else if x.form = .zero ∨ y.form = .inf then
    .ok { prec := prec, form := .zero, neg := neg, mag := 0 }
  else
    .ok { prec := prec, form := .inf, neg := neg, mag := 0 }

/-- The tail of `(*big.Float).Float64` for a mantissa precision `p > 0`: round
to `p` bits, overflow to an infinity when the exponent exceeds `emax = 1023`. -/
def float64Round (neg : Bool) (p : ℕ) (mag : ℚ) : F64 :=
  let r := roundPrec p mag
  if binExp r - 1 > 1023 then .inf neg else .fin (signed neg r)

/-- Embedding of `(*big.Float).Float64`: the nearest `float64` (ties to even), with gradual
underflow below `emin = -1022`. -/
def Float64 (x : BigFloat) : F64 :=
  match x.form with
  | .zero => .zero x.neg
  | .inf => .inf x.neg
  | .finite =>
    let e : ℤ := binExp x.mag - 1
    if e < -1022 then
      let p : ℤ := 52 + 1 + 1022 + e
      if p < 0 ∨ (p = 0 ∧ x.mag = 2 ^ e) then .zero x.neg
      else if p = 0 then .fin (signed x.neg smallestNonzeroFloat64)
      else float64Round x.neg p.toNat x.mag
    else float64Round x.neg 53 x.mag

end BigFloat

/-- The exact value `q` as a `float64` (`+0` for zero); meaningful when `q` is
representable. -/
def F64.exact (q : ℚ) : F64 := if q = 0 then .zero false else .fin q

/-- The nearest `float64` to the rational `q` (ties to even): what a correctly
rounded conversion of an exact value yields. -/
def F64.ofRat (q : ℚ) : F64 :=
  if q = 0 then .zero false
  else BigFloat.Float64 { prec := 0, form := .finite, neg := decide (q < 0), mag := |q| }

/-- A well-formed `float64`: a finite value is non-zero and is its own nearest
`float64`. -/
def F64.WF : F64 → Prop
  | .fin q => q ≠ 0 ∧ F64.ofRat q = .fin q
  | _ => True

instance : DecidablePred F64.WF := fun x => by
  cases x <;> unfold F64.WF <;> infer_instance

/-- Go's `x != 0` on a `float64`: false exactly for the two zeros. -/
def F64.isNonZero : F64 → Bool
  | .zero _ => false
  | .fin q => decide (q ≠ 0)
  | _ => true

/-- The sign bit of a `float64` (false for NaN). -/
def F64.signbit : F64 → Bool
  | .nan => false
  | .inf neg => neg
  | .zero neg => neg
  | .fin q => decide (q < 0)

/-- The `float64` of sign `neg` nearest to the magnitude `m ≥ 0` (a signed zero for 0). -/
def F64.ofSignMag (neg : Bool) (m : ℚ) : F64 :=
  if m = 0 then .zero neg
  else BigFloat.Float64 { prec := 0, form := .finite, neg := neg, mag := m }

/-- IEEE 754 multiplication of `float64`s (Go's `*`). -/
def F64.mul (x y : F64) : F64 :=
  let neg := x.signbit != y.signbit
  match x, y with
  | .nan, _ => .nan
  | _, .nan => .nan
  | .inf _, .zero _ => .nan
  | .zero _, .inf _ => .nan
  | .inf _, _ => .inf neg
  | _, .inf _ => .inf neg
  | .zero _, _ => .zero neg
  | _, .zero _ => .zero neg
  | .fin a, .fin b => F64.ofSignMag neg |a * b|

/-- IEEE 754 division of `float64`s (Go's `/`). -/
def F64.div (x y : F64) : F64 :=
  let neg := x.signbit != y.signbit
  match x, y with
  | .nan, _ => .nan
  | _, .nan => .nan
  | .inf _, .inf _ => .nan
  | .zero _, .zero _ => .nan
  | .inf _, _ => .inf neg
  | _, .inf _ => .zero neg
  | .zero _, _ => .zero neg
  | _, .zero _ => .inf neg
  | .fin a, .fin b => F64.ofSignMag neg |a / b|

/-- The rational value of a finite `float64` (0 for a zero; not meaningful otherwise). -/
def F64.value : F64 → ℚ
  | .fin q => q
  | _ => 0

/-- Go's `x <= y` on `float64`s: false when either is NaN. -/
def F64.le : F64 → F64 → Bool
  | .nan, _ => false
  | _, .nan => false
  | .inf true, _ => true
  | _, .inf false => true
  | .inf false, _ => false
  | _, .inf true => false
  | x, y => decide (x.value ≤ y.value)

/-- Embedding of `pow10tab` of package `math`: the literals `1e00 .. 1e31`. -/
def pow10tab (i : ℕ) : F64 := F64.ofRat (10 ^ i)

/-- Embedding of `pow10postab32` of package `math`: the literals `1e00, 1e32, .., 1e288`. -/
def pow10postab32 (i : ℕ) : F64 := F64.ofRat (10 ^ (32 * i))

/-- Embedding of `pow10negtab32` of package `math`: the literals `1e-00, 1e-32, .., 1e-320`. -/
def pow10negtab32 (i : ℕ) : F64 := F64.ofRat (10 ^ (-(32 * i : ℤ)))

/-- Embedding of `math.Pow10`. -/
def Pow10 (n : ℤ) : F64 :=
  if 0 ≤ n ∧ n ≤ 308 then
    F64.mul (pow10postab32 (n.toNat / 32)) (pow10tab (n.toNat % 32))
  else if -323 ≤ n ∧ n ≤ 0 then
    F64.div (pow10negtab32 ((-n).toNat / 32)) (pow10tab ((-n).toNat % 32))
  else if n > 0 then .inf false
  else .zero false

/-! ## config.go -/

/-- The fields of `Config` read by the embedded code. `ConstLabels`, which no flag sets,
is taken to be nil: a metric carries only its variable labels. -/
structure Config where
  Denom : String
  ListenAddress : String
  NodeAddress : String
  TendermintRPC : String
  EthRPC : String
  EthTokenContract : String
  EthGravityContract : String
  LogLevel : String
  DenomCoefficient : F64
  TokenPrices : List String
  deriving DecidableEq

/-- Embedding of `NewConfig`: `&Config{}`, every field at its zero value. -/
def NewConfig : Config :=
  { Denom := "", ListenAddress := "", NodeAddress := "", TendermintRPC := "",
    EthRPC := "", EthTokenContract := "", EthGravityContract := "", LogLevel := "",
    DenomCoefficient := .zero false, TokenPrices := [] }

/-! ## utils.go -/

/-- Embedding of `ToNativeBalance`: the balance divided by `config.DenomCoefficient` in
`big.Float` arithmetic, then narrowed to `float64`. -/
def ToNativeBalance (config : Config) (balance : ℤ) : Except String F64 := do
  let x := BigFloat.SetInt BigFloat.new balance
  let y ← BigFloat.SetFloat64 BigFloat.new config.DenomCoefficient
  let tokensRatioBig ← BigFloat.Quo BigFloat.new x y
  return tokensRatioBig.Float64

/-- Embedding of `BigIntToFloat`: the value narrowed to `float64`. -/
def BigIntToFloat (value : ℤ) : F64 :=
  (BigFloat.SetInt BigFloat.new value).Float64


/-! ## utils_test.go -/

/-- Embedding of `TestToNativeBalance`: `true` when the test passes, i.e. when
`ToNativeBalance(10000000000)` returns without panicking a value equal to `1.0`. -/
def TestToNativeBalance (config : Config) : Bool :=
  match ToNativeBalance config 10000000000 with
  | .ok formattedValue => decide (formattedValue = .fin 1)
  | .error _ => false

/-! ## network.go -/

/-- A `banktypes.DenomUnit`; `Exponent` is a `uint32`. -/
structure DenomUnit where
  Denom : String
  Exponent : ℕ
  deriving DecidableEq

/-- The fields of `banktypes.Metadata` read by `setDenom`. -/
structure Metadata where
  DenomUnits : List DenomUnit
  Display : String
  deriving DecidableEq

/-- What a call of `setDenom` leaves behind: the returned error (`none` for nil), the
package-level `config` afterwards, and whether the denom-metadata query was issued. -/
structure SetDenomResult where
  err : Option String
  config : Config
  queried : Bool
  deriving DecidableEq

/-- The loop of `setDenom` over `metadata.DenomUnits`: the first unit named
`config.Denom` sets the coefficient; without one the error is returned. -/
def setDenomUnits (config : Config) : List DenomUnit → Option String × Config
  | [] => (some "could not find denom info", config)
  | unit :: rest =>
    if unit.Denom = config.Denom then
      (none, { config with DenomCoefficient := Pow10 (unit.Exponent : ℤ) })
    else setDenomUnits config rest

/-- Embedding of `(*CosmosNetwork).setDenom`. `DenomsMetadata` is the answer the bank client
gives to the denom-metadata query if it is asked. Indexing `denoms.Metadatas[0]` panics on an
empty slice, which is the error of the outer `Except`. -/
def setDenom (config : Config) (DenomsMetadata : Except String (List Metadata)) :
    Except String SetDenomResult :=
  if config.Denom ≠ "" ∧ config.DenomCoefficient.isNonZero = true then
    .ok { err := none, config := config, queried := false }
  else
    match DenomsMetadata with
    | .error err => .ok { err := some err, config := config, queried := true }
    | .ok Metadatas =>
      if Metadatas.length = 0 then
        .ok { err := some ("No denom infos. Try running the binary with --denom and " ++
                "--denom-coefficient to set them manually."),
              config := config, queried := true }
      else
        match Metadatas[0]? with
        | none => .error "index out of range [0] with length 0"
        | some metadata =>
          let config := if config.Denom = "" then { config with Denom := metadata.Display }
                        else config
          let (err, config) := setDenomUnits config metadata.DenomUnits
          .ok { err := err, config := config, queried := true }

/-- The answers of the node's Tendermint RPC during `setChainID`: the error of
`tmrpc.New` (`none` for nil) and the outcome of `client.Status`, the network name. -/
structure TendermintRPC where
  New : Option String
  Status : Except String String

/-- How the process ends: a Go panic, or `log.Fatal` (which exits). -/
inductive Exit where
  | panic (msg : String)
  | fatal (msg : String)
  deriving DecidableEq

/-- Embedding of `(*CosmosNetwork).setChainID`: `log.Fatal` when the client cannot be created;
otherwise the returned error and the chain id now held by the network. -/
def setChainID (ChainId : String) (rpc : TendermintRPC) : Except Exit (Option String × String) :=
  match rpc.New with
  | some err => .error (.fatal ("Could not create Tendermint client: " ++ err))
  | none =>
    match rpc.Status with
    | .error err => .ok (some err, ChainId)
    | .ok network => .ok (none, network)

/-! ## main.go and server.go -/

/-- What `Execute` meets outside the process: the level parser, the gRPC dial of
`NewCosmosNetwork`, the Tendermint RPC, the bank client's denom-metadata answer, and the
error with which `http.ListenAndServe` eventually returns (it never returns nil). -/
structure Startup where
  ParseLevel : String → Option String
  Dial : Option String
  rpc : TendermintRPC
  DenomsMetadata : Except String (List Metadata)
  ListenAndServe : String

/-- The steps of `Execute` that the specification talks about, in the order taken. -/
inductive Step where
  | setChainID (err : Option String)
  | setDenom (err : Option String)
  | NewServer (listenAddr : String)
  | Start
  deriving DecidableEq

/-- A run of `Execute`: the steps taken, the `config` at the end, and how it ended. -/
structure Run where
  steps : List Step
  config : Config
  exit : Exit
  deriving DecidableEq

/-- Embedding of `Execute`. The values returned by `network.setChainID` and `network.setDenom` are
discarded, as in the source; `server.Start()` returns only with an error, which is fatal. -/
def Execute (config : Config) (env : Startup) : Run :=
  let levelErr : Option String :=
    match env.ParseLevel config.LogLevel with
    | none => none
    | some _ => env.ParseLevel "INFO"
  match levelErr with
  | some err => { steps := [], config := config, exit := .panic err }
  | none =>
    match env.Dial with
    | some err => { steps := [], config := config, exit := .panic err }
    | none =>
      match setChainID "" env.rpc with
      | .error exit => { steps := [], config := config, exit := exit }
      | .ok (chainErr, _) =>
        match setDenom config env.DenomsMetadata with
        | .error msg => { steps := [.setChainID chainErr], config := config, exit := .panic msg }
        | .ok denom =>
          { steps := [.setChainID chainErr, .setDenom denom.err,
                      .NewServer denom.config.ListenAddress, .Start],
            config := denom.config,
            exit := .fatal ("Could not start application: " ++ env.ListenAndServe) }

/-! ## Metrics registry -/

/-- One series of a registry: metric name, label pairs in the order the vector declares
them, and the gauge's value. A gauge write `vec.With(labels).Set(value)` has the same
shape. -/
structure Series where
  name : String
  labels : List (String × String)
  value : F64
  deriving DecidableEq

/-- The series a registry holds, in order of creation. -/
abbrev Registry := List Series

/-- Embedding of `With(labels).Set(value)`: the series of that name and labels gets the
value, and is created when the registry does not hold it yet. -/
def Registry.Set (r : Registry) (w : Series) : Registry :=
  if r.any (fun s => decide (s.name = w.name ∧ s.labels = w.labels)) then
    r.map (fun s => if s.name = w.name ∧ s.labels = w.labels then w else s)
  else r ++ [w]

/-- The gauge writes of a task applied in order. -/
def Registry.apply (r : Registry) (writes : List Series) : Registry :=
  writes.foldl Registry.Set r

/-- An `sdk.Coin`: denom and integer amount (`sdk.Int`). -/
structure Coin where
  Denom : String
  Amount : ℤ
  deriving DecidableEq

/-- An `sdk.DecCoin`; the `sdk.Dec` amount is carried as its count of `10^-18` units. -/
structure DecCoin where
  Denom : String
  Amount : ℤ
  deriving DecidableEq

/-- Embedding of `strconv.ParseFloat(s, 64)` on the decimal rendering `s` of the exact value
`q`: the nearest `float64`, and a range error when that is an infinity. -/
def ParseFloat (q : ℚ) : F64 × Option String :=
  match F64.ofRat q with
  | .inf neg => (.inf neg, some "value out of range")
  | f => (f, none)

/-! ## general.go -/

/-- The outcome of one CoinGecko lookup: a failed request, a failed body read, a failed
JSON decode, or the decoded `market_data.current_price` fields. -/
inductive PriceReply where
  | getFailed (err : String)
  | readFailed (err : String)
  | decodeFailed (err : String)
  | ok (Usd Gbp : F64)

/-- The answers `GeneralHandler` gets: staking pool (bonded, not bonded), community pool,
total supply, and the reply to the `i`-th price request, made for a token. -/
structure GeneralBackend where
  Pool : Except String (ℤ × ℤ)
  CommunityPool : Except String (List DecCoin)
  TotalSupply : Except String (List Coin)
  coinGecko : ℕ → String → PriceReply

/-- The registry right after `newGeneralMetrics`: the two plain gauges exist with value
0; the three gauge vectors have no series yet. -/
def newGeneralMetrics : Registry :=
  [ { name := "cosmos_general_bonded_tokens", labels := [], value := .zero false },
    { name := "cosmos_general_not_bonded_tokens", labels := [], value := .zero false } ]

/-- The staking-pool task of `GeneralHandler`: its gauge writes. -/
def stakingPoolTask (b : GeneralBackend) : List Series :=
  match b.Pool with
  | .error _ => []
  | .ok (BondedTokens, NotBondedTokens) =>
    [ { name := "cosmos_general_bonded_tokens", labels := [],
        value := BigIntToFloat BondedTokens },
      { name := "cosmos_general_not_bonded_tokens", labels := [],
        value := BigIntToFloat NotBondedTokens } ]

/-- The community-pool task of `GeneralHandler`: its gauge writes. -/
def communityPoolTask (config : Config) (b : GeneralBackend) : List Series :=
  match b.CommunityPool with
  | .error _ => []
  | .ok Pool =>
    Pool.filterMap fun coin =>
      match ParseFloat ((coin.Amount : ℚ) / 10 ^ 18) with
      | (_, some _) => none
      | (value, none) =>
        some { name := "cosmos_general_community_pool", labels := [("denom", config.Denom)],
               value := F64.div value config.DenomCoefficient }

/-- The total-supply task of `GeneralHandler`: its gauge writes. -/
def totalSupplyTask (b : GeneralBackend) : List Series :=
  match b.TotalSupply with
  | .error _ => []
  | .ok Supply =>
    Supply.filterMap fun coin =>
      match ParseFloat (coin.Amount : ℚ) with
      | (_, some _) => none
      | (value, none) =>
        some { name := "cosmos_general_supply_total", labels := [("denom", coin.Denom)],
               value := value }

/-- The loop of the token-price task from the `i`-th request on: it returns at the
first failed lookup. -/
def tokenPriceLoop (coinGecko : ℕ → String → PriceReply) (i : ℕ) :
    List String → List Series
  | [] => []
  | token :: rest =>
    match coinGecko i token with
    | .ok Usd Gbp =>
      { name := "cosmos_token_price", labels := [("token", token), ("currency", "usd")],
        value := Usd } ::
      { name := "cosmos_token_price", labels := [("token", token), ("currency", "gbp")],
        value := Gbp } ::
      tokenPriceLoop coinGecko (i + 1) rest
    | _ => []

/-- The token-price task of `GeneralHandler`: its gauge writes. -/
def tokenPriceTask (config : Config) (b : GeneralBackend) : List Series :=
  tokenPriceLoop b.coinGecko 0 config.TokenPrices

/-- Embedding of `GeneralHandler`: the registry rendered to the response once the four tasks are
done. Every task writes gauges of its own, so the registry does not depend on how the
tasks interleave; their writes are applied in source order. -/
def GeneralHandler (config : Config) (b : GeneralBackend) : Registry :=
  Registry.apply newGeneralMetrics
    (stakingPoolTask b ++ communityPoolTask config b ++ totalSupplyTask b ++
      tokenPriceTask config b)

/-! ## gravity-bridge.go -/

/-- The query parameters of a `/metrics/gravity-bridge` request. -/
structure GravityRequest where
  cudos_orchestrator_address : String
  ethereum_orchestrator_address : String

/-- The answers `GravityBridgeHandler` gets. Addresses are carried by their `String()`
form; an `Option String` is a returned error (`none` for nil). -/
structure GravityBackend where
  AccAddressFromBech32 : String → Except String String
  HexToAddress : String → String
  Dial : Option String
  AllBalances : Except String (List Coin)
  BalanceAt : Except String ℤ
  NewMain : Option String
  BalanceOfOrchestrator : Except String ℤ
  BalanceOfGravity : Except String ℤ

/-- What the client of a request gets: nothing written by the handler (it logged an
error and returned), the rendered registry, or a crashed process (a panic in a task). -/
inductive Response where
  | notWritten
  | rendered (registry : Registry)
  | crashed (msg : String)
  deriving DecidableEq

/-- The loop of the first task over `bankRes.Balances`: one write per balance, all under
the same labels; a panic of `ToNativeBalance` ends it. -/
def cudoOrchBalanceLoop (config : Config) (labels : List (String × String)) :
    List Coin → Except String (List Series)
  | [] => .ok []
  | balance :: rest =>
    match ToNativeBalance config balance.Amount with
    | .error msg => .error msg
    | .ok tokensRatio =>
      match cudoOrchBalanceLoop config labels rest with
      | .error msg => .error msg
      | .ok writes =>
        .ok ({ name := "gravity_cudos_orchestrator_balance", labels := labels,
               value := tokensRatio } :: writes)

/-- The first task of `GravityBridgeHandler`: the balances of the cudos orchestrator
wallet. -/
def cudoOrchBalanceTask (config : Config) (b : GravityBackend)
    (labels : List (String × String)) : Except String (List Series) :=
  match b.AllBalances with
  | .error _ => .ok []
  | .ok Balances => cudoOrchBalanceLoop config labels Balances

/-- The second task: the native balance of the ethereum orchestrator wallet. -/
def ethOrchBalanceTask (config : Config) (b : GravityBackend)
    (labels : List (String × String)) : Except String (List Series) :=
  match b.BalanceAt with
  | .error _ => .ok []
  | .ok ethBal => do
    let tokensRatio ← ToNativeBalance config ethBal
    pure [{ name := "gravity_ethereum_orchestrator_balance", labels := labels,
            value := tokensRatio }]

/-- The third task: the ERC20 balance of the ethereum orchestrator wallet. -/
def ethERC20OrchBalanceTask (config : Config) (b : GravityBackend)
    (labels : List (String × String)) : Except String (List Series) :=
  match b.NewMain with
  | some _ => .ok []
  | none =>
    match b.BalanceOfOrchestrator with
    | .error _ => .ok []
    | .ok ethBal => do
      let tokensRatio ← ToNativeBalance config ethBal
      pure [{ name := "gravity_ethereum_orchestrator_erc20_balance", labels := labels,
              value := tokensRatio }]

/-- The fourth task: the token balance of the gravity contract. -/
def ethContractBalanceTask (config : Config) (b : GravityBackend) :
    Except String (List Series) :=
  match b.BalanceOfGravity with
  | .error _ => .ok []
  | .ok ethBal => do
    let tokensRatio ← ToNativeBalance config ethBal
    pure [{ name := "gravity_ethereum_contract_balance", labels := [], value := tokensRatio }]

/-- Embedding of `GravityBridgeHandler`. It returns without writing when the cudos address does not
parse, when `ethclient.Dial` fails, and (with three tasks already started) when the token
binding cannot be created; otherwise it renders the registry once the four tasks are
done. A panic inside a task crashes the process. -/
def GravityBridgeHandler (config : Config) (b : GravityBackend) (r : GravityRequest) :
    Response :=
  match b.AccAddressFromBech32 r.cudos_orchestrator_address with
  | .error _ => .notWritten
  | .ok cudosOrchestratorAddress =>
    match b.Dial with
    | some _ => .notWritten
    | none =>
      let labels := [("cudos_orchestrator_address", cudosOrchestratorAddress),
        ("ethereum_orchestrator_address", b.HexToAddress r.ethereum_orchestrator_address)]
      let started : Except String (List Series) := do
        let w1 ← cudoOrchBalanceTask config b labels
        let w2 ← ethOrchBalanceTask config b labels
        let w3 ← ethERC20OrchBalanceTask config b labels
        pure (w1 ++ w2 ++ w3)
      match b.NewMain with
      | some _ =>
        match started with
        | .error msg => .crashed msg
        | .ok _ => .notWritten
      | none =>
        let all : Except String (List Series) := do
          let w ← started
          let w4 ← ethContractBalanceTask config b
          pure (w ++ w4)
        match all with
        | .error msg => .crashed msg
        | .ok writes => .rendered (Registry.apply [] writes)

/-! ## Concrete inputs used by instances of the theorems -/

/-- A `Metadata` whose display unit `atom` has exponent 6. -/
def atomMetadata : Metadata :=
  { DenomUnits := [{ Denom := "uatom", Exponent := 0 }, { Denom := "atom", Exponent := 6 }],
    Display := "atom" }

/-- A `Metadata` whose display unit has exponent 309, beyond the range of `math.Pow10`. -/
def hugeExponentMetadata : Metadata :=
  { DenomUnits := [{ Denom := "atom", Exponent := 309 }], Display := "atom" }

/-- A start-up in which everything works except that the node reports no denom
metadata. -/
def noDenomStartup : Startup :=
  { ParseLevel := fun _ => none, Dial := none,
    rpc := { New := none, Status := .ok "cudos-1" },
    DenomsMetadata := .ok [], ListenAndServe := "http: Server closed" }

/-- A configuration with denom `uatom` and coefficient `1_000_000`. -/
def uatomConfig : Config :=
  { NewConfig with Denom := "uatom", DenomCoefficient := .fin 1000000 }

/-- A primary backend that reports the total supply `[{uatom, 5000000}]` and fails every
other query. -/
def uatomBackend : GeneralBackend :=
  { Pool := .error "unavailable", CommunityPool := .error "unavailable",
    TotalSupply := .ok [{ Denom := "uatom", Amount := 5000000 }],
    coinGecko := fun _ _ => .getFailed "unavailable" }

/-- A gravity-bridge request. Its cudos address is the bech32 form, under the SDK's
default account prefix `cosmos` (which `Execute` leaves in place), of the 20 bytes
`01 02 .. 14`; its Ethereum address has no hex letter, so that its EIP-55 form is the
string itself. -/
def orchestratorRequest : GravityRequest :=
  { cudos_orchestrator_address := "cosmos1qypqxpq9qcrsszg2pvxq6rs0zqg3yyc5lzv7xu",
    ethereum_orchestrator_address := "0x0000000000000000000000000000000000000001" }

/-- A backend whose primary chain reports the orchestrator balance `[{acudos, 5000000}]`
while the Ethereum node cannot be dialled. Of `sdk.AccAddressFromBech32` and
`common.HexToAddress` it holds the values at the parameters of `orchestratorRequest`: the
address parses and is printed back as the same string, and the Ethereum address is
printed back as the same string. No statement evaluates the two functions at another
parameter; there the cudos address is taken to be rejected and the Ethereum address to
print as the zero address. -/
def ethDialFailedBackend : GravityBackend :=
  { AccAddressFromBech32 := fun s =>
      if s = "cosmos1qypqxpq9qcrsszg2pvxq6rs0zqg3yyc5lzv7xu" then .ok s
      else .error "decoding bech32 failed",
    HexToAddress := fun s =>
      if s = "0x0000000000000000000000000000000000000001" then s
      else "0x0000000000000000000000000000000000000000",
    Dial := some "dial unix /eth.ipc: connect: no such file or directory",
    AllBalances := .ok [{ Denom := "acudos", Amount := 5000000 }],
    BalanceAt := .error "connection refused", NewMain := none,
    BalanceOfOrchestrator := .error "connection refused",
    BalanceOfGravity := .error "connection refused" }

/-- The same backend with a client that is created but whose every query fails. -/
def ethQueriesFailedBackend : GravityBackend :=
  { ethDialFailedBackend with Dial := none }

/-! ## Vocabulary for statements about gauge writes -/

/-- What a gauge write targets: the metric name and the label pairs. Two writes with the
same key go to the same series, the later value replacing the earlier. -/
def Series.key (s : Series) : String × List (String × String) := (s.name, s.labels)

/-- Whether a CoinGecko lookup failed (request, body read or JSON decode). -/
def PriceReply.failed : PriceReply → Bool
  | .ok _ _ => false
  | _ => true

/-- The lookups for `tokens`, made as requests `i`, `i + 1`, .., all succeed and decode
the given (usd, gbp) prices. -/
def lookupsOk (coinGecko : ℕ → String → PriceReply) (i : ℕ) :
    List String → List (F64 × F64) → Prop
  | [], [] => True
  | token :: tokens, price :: prices =>
    coinGecko i token = .ok price.1 price.2 ∧ lookupsOk coinGecko (i + 1) tokens prices
  | _, _ => False

/-- The usd and gbp writes of `cosmos_token_price` for each token with its prices. -/
def priceWrites : List String → List (F64 × F64) → List Series
  | token :: tokens, price :: prices =>
    { name := "cosmos_token_price", labels := [("token", token), ("currency", "usd")],
      value := price.1 } ::
    { name := "cosmos_token_price", labels := [("token", token), ("currency", "gbp")],
      value := price.2 } ::
    priceWrites tokens prices
  | _, _ => []

/-- A configuration whose token list names `bitcoin` twice. -/
def repeatedTokenConfig : Config :=
  { NewConfig with TokenPrices := ["bitcoin", "bitcoin"] }

/-- A backend whose first price lookup succeeds (usd 50000, gbp 40000) and whose later
lookups fail; the other queries fail. -/
def secondLookupFailsBackend : GeneralBackend :=
  { Pool := .error "unavailable", CommunityPool := .error "unavailable",
    TotalSupply := .error "unavailable",
    coinGecko := fun i _ => if i = 0 then .ok (.fin 50000) (.fin 40000)
                            else .getFailed "timeout" }

/-- A configuration whose token list is `bitcoin`, `cudos`. -/
def twoTokenConfig : Config :=
  { NewConfig with TokenPrices := ["bitcoin", "cudos"] }

/-- All gauge writes made while serving one `GeneralHandler` request, task by task. -/
def generalWrites (config : Config) (b : GeneralBackend) : List Series :=
  stakingPoolTask b ++ communityPoolTask config b ++ totalSupplyTask b ++
    tokenPriceTask config b

/-- All gauge writes made while serving one `GravityBridgeHandler` request whose four
tasks run, task by task, under the label pairs of the two orchestrator addresses. -/
def gravityWrites (config : Config) (b : GravityBackend) (labels : List (String × String)) :
    Except String (List Series) := do
  let w1 ← cudoOrchBalanceTask config b labels
  let w2 ← ethOrchBalanceTask config b labels
  let w3 ← ethERC20OrchBalanceTask config b labels
  let w4 ← ethContractBalanceTask config b
  pure (w1 ++ w2 ++ w3 ++ w4)

/-- A primary backend whose community pool holds two coins, `5000000` and `7000000` whole
units (an `sdk.Dec` counts `10^-18` units); the other queries fail. -/
def twoCoinPoolBackend : GeneralBackend :=
  { Pool := .error "unavailable",
    CommunityPool := .ok [{ Denom := "acudos", Amount := 5000000000000000000000000 },
                          { Denom := "uatom", Amount := 7000000000000000000000000 }],
    TotalSupply := .error "unavailable",
    coinGecko := fun _ _ => .getFailed "unavailable" }

/-- A gravity backend whose orchestrator wallet holds two balances; the Ethereum queries
fail. -/
def twoBalanceBackend : GravityBackend :=
  { ethQueriesFailedBackend with
    AllBalances := .ok [{ Denom := "acudos", Amount := 5000000 },
                        { Denom := "stake", Amount := 7000000 }] }

/-- A configuration with denom `uatom`, coefficient `1_000_000` and the token list
`bitcoin`, `cudos`. -/
def busyConfig : Config :=
  { NewConfig with Denom := "uatom", DenomCoefficient := .fin 1000000,
                   TokenPrices := ["bitcoin", "cudos"] }

/-- A primary backend every query of which succeeds: a staking pool, a community pool of
two coins, a total supply of two coins, and a price for every token. -/
def busyBackend : GeneralBackend :=
  { Pool := .ok (100, 50),
    CommunityPool := .ok [{ Denom := "acudos", Amount := 5000000000000000000000000 },
                          { Denom := "uatom", Amount := 7000000000000000000000000 }],
    TotalSupply := .ok [{ Denom := "acudos", Amount := 5000000 },
                        { Denom := "uatom", Amount := 7000000 }],
    coinGecko := fun _ _ => .ok (.fin 50000) (.fin 40000) }

/-- A `Metadata` whose unit `atom` has exponent 400. -/
def exponent400Metadata : Metadata :=
  { DenomUnits := [{ Denom := "atom", Exponent := 400 }], Display := "ATOM" }

/-! ## The wait group of a handler

Both handlers start their tasks with `go func() { defer wg.Done(); ... }()` followed by
`wg.Add(1)`, then call `wg.Wait()` and render. The goroutines are modelled by an
interleaving: a scheduler picks, move by move, either the next step of the handler's own
goroutine or the end of a started task (its deferred `wg.Done()`). -/

/-- Where the handler's own goroutine stands. -/
inductive Main where
  | dispatch (k : ℕ)
  | add (k : ℕ)
  | wait
  | render
  | finished
  | returned
  deriving DecidableEq

/-- The shape of a handler's fan-out: how many tasks it starts, and before which task (if
any) it returns early, as `GravityBridgeHandler` does before its fourth task when the
token binding cannot be created. -/
structure FanOut where
  tasks : ℕ
  returnsBefore : Option ℕ
  deriving DecidableEq

/-- The state of one request: the handler's position, the tasks started and not yet at
their end, the tasks that reached their end, the wait group's counter, whether the
registry has been rendered, and whether the process has crashed. -/
structure Handling where
  main : Main
  running : List ℕ
  done : List ℕ
  counter : ℤ
  rendered : Bool
  crashed : Bool
  deriving DecidableEq

/-- A move of the scheduler: the handler's goroutine takes its next step, or the started
task `k` runs to its end and its deferred `wg.Done()` is executed. -/
inductive Move where
  | main
  | done (k : ℕ)
  deriving DecidableEq

/-- The state in which a handler is entered. -/
def Handling.init : Handling :=
  { main := .dispatch 0, running := [], done := [], counter := 0, rendered := false,
    crashed := false }

/-- One move, or `none` when the move is not enabled: nothing moves after a crash,
`wg.Wait()` only passes at counter zero, and only a running task can end. `wg.Done()`
that makes the counter negative panics, which crashes the process. -/
def Handling.step (p : FanOut) (s : Handling) : Move → Option Handling
  | .main =>
    if s.crashed then none
    else
      match s.main with
      | .dispatch k =>
        if p.returnsBefore = some k then some { s with main := .returned }
        else some { s with main := .add k, running := k :: s.running }
      | .add k =>
        some { s with counter := s.counter + 1,
                      main := if k + 1 < p.tasks then .dispatch (k + 1) else .wait }
      | .wait => if s.counter = 0 then some { s with main := .render } else none
      | .render => some { s with rendered := true, main := .finished }
      | .finished => none
      | .returned => none
  | .done k =>
    if s.crashed then none
    else if k ∈ s.running then
      some { s with running := s.running.erase k, done := k :: s.done,
                    counter := s.counter - 1, crashed := decide (s.counter - 1 < 0) }
    else none

/-- The state after a schedule, `none` when one of its moves is not enabled. -/
def Handling.run (p : FanOut) : Handling → List Move → Option Handling
  | s, [] => some s
  | s, m :: ms =>
    match Handling.step p s m with
    | none => none
    | some s' => Handling.run p s' ms

/-- The fan-out of `GeneralHandler`: four tasks, no early return. -/
def generalFanOut : FanOut := { tasks := 4, returnsBefore := none }

/-- The fan-out of `GravityBridgeHandler`: four tasks, and a return before the fourth
when `NewMain` fails. -/
def gravityFanOut (NewMainFails : Bool) : FanOut :=
  { tasks := 4, returnsBefore := if NewMainFails then some 3 else none }

/-- The invariant kept by every move: the tasks started are those the handler has passed,
and the counter is the number of `wg.Add(1)` executed minus the number of tasks ended. -/
def Handling.Inv (p : FanOut) (s : Handling) : Prop :=
  match s.main with
  | .dispatch k =>
    s.running.length + s.done.length = k ∧ s.counter = (k : ℤ) - s.done.length ∧
      s.rendered = false ∧ k < p.tasks
  | .add k =>
    s.running.length + s.done.length = k + 1 ∧ s.counter = (k : ℤ) - s.done.length ∧
      s.rendered = false ∧ k < p.tasks
  | .wait =>
    s.running.length + s.done.length = p.tasks ∧
      s.counter = (p.tasks : ℤ) - s.done.length ∧ s.rendered = false
  | .render => s.running = [] ∧ s.done.length = p.tasks ∧ s.rendered = false
  | .finished => s.running = [] ∧ s.done.length = p.tasks
  | .returned => s.rendered = false

/-! ## Rounding lemmas -/

theorem roundHalfEven_intCast (k : ℤ) : roundHalfEven (k : ℚ) = k := by
  simp [roundHalfEven]

theorem roundHalfEven_cases (t : ℚ) :
    roundHalfEven t = ⌊t⌋ ∨ roundHalfEven t = ⌊t⌋ + 1 := by
  unfold roundHalfEven
  simp only
  split_ifs <;> simp

theorem abs_roundHalfEven_sub_le (t : ℚ) : |(roundHalfEven t : ℚ) - t| ≤ 1 / 2 := by
  have h1 := Int.floor_le t
  have h2 := Int.lt_floor_add_one t
  unfold roundHalfEven
  simp only
  rw [abs_le]
  split_ifs with a b c
  · constructor <;> linarith
  · push_cast; constructor <;> linarith
  · constructor <;> linarith
  · push_cast; constructor <;> linarith

theorem roundHalfEven_le_of_le (t : ℚ) (n : ℤ) (h : t ≤ n) : roundHalfEven t ≤ n := by
  rcases eq_or_lt_of_le h with h | h
  · rw [h, roundHalfEven_intCast]
  · have : ⌊t⌋ < n := Int.floor_lt.mpr h
    rcases roundHalfEven_cases t with e | e <;> omega

theorem le_roundHalfEven_of_le (t : ℚ) (n : ℤ) (h : (n : ℚ) ≤ t) :
    n ≤ roundHalfEven t := by
  have : n ≤ ⌊t⌋ := Int.le_floor.mpr h
  rcases roundHalfEven_cases t with e | e <;> omega

theorem binExp_le (q : ℚ) (hq : 0 < q) : (2 : ℚ) ^ (binExp q - 1) ≤ q := by
  have := Int.zpow_log_le_self (b := 2) (by norm_num) hq
  simpa [binExp] using this

theorem lt_binExp (q : ℚ) : q < (2 : ℚ) ^ binExp q := by
  have := Int.lt_zpow_succ_log_self (b := 2) (by norm_num) q
  simpa [binExp] using this

theorem binExp_le_of_lt (q : ℚ) (e : ℤ) (hq : 0 < q) (h : q < 2 ^ e) : binExp q ≤ e := by
  have := (Int.lt_zpow_iff_log_lt (b := 2) (by norm_num) hq).mp (by exact_mod_cast h)
  unfold binExp; omega

theorem lt_binExp_of_le (q : ℚ) (e : ℤ) (hq : 0 < q) (h : (2 : ℚ) ^ e ≤ q) :
    e < binExp q := by
  have := (Int.zpow_le_iff_le_log (b := 2) (by norm_num) hq).mp (by exact_mod_cast h)
  unfold binExp; omega

theorem binExp_eq (q : ℚ) (e : ℤ) (h1 : (2 : ℚ) ^ (e - 1) ≤ q) (h2 : q < 2 ^ e) :
    binExp q = e := by
  have hq : 0 < q := lt_of_lt_of_le (by positivity) h1
  have a := binExp_le_of_lt q e hq h2
  have b := lt_binExp_of_le q (e - 1) hq h1
  omega


theorem roundPrec_def (p : ℕ) (q : ℚ) :
    roundPrec p q = roundHalfEven (q / 2 ^ (binExp q - p)) * 2 ^ (binExp q - p) := rfl

theorem abs_roundPrec_sub_le (p : ℕ) (q : ℚ) :
    |roundPrec p q - q| ≤ 2 ^ (binExp q - p) / 2 := by
  have hu : (0 : ℚ) < 2 ^ (binExp q - p) := by positivity
  have h := abs_roundHalfEven_sub_le (q / 2 ^ (binExp q - p))
  rw [roundPrec_def]
  have e : (roundHalfEven (q / 2 ^ (binExp q - p)) : ℚ) * 2 ^ (binExp q - p) - q
      = ((roundHalfEven (q / 2 ^ (binExp q - p)) : ℚ) - q / 2 ^ (binExp q - p))
        * 2 ^ (binExp q - p) := by
    field_simp
  rw [e, abs_mul, abs_of_pos hu]
  calc _ ≤ 1 / 2 * (2:ℚ) ^ (binExp q - p) := mul_le_mul_of_nonneg_right h hu.le
    _ = _ := by ring

theorem abs_roundPrec_sub_le_mul (p : ℕ) (q : ℚ) (hq : 0 < q) :
    |roundPrec p q - q| ≤ q * 2 ^ (-(p : ℤ)) := by
  refine (abs_roundPrec_sub_le p q).trans ?_
  have h := binExp_le q hq
  have e : (2 : ℚ) ^ (binExp q - p) / 2 = 2 ^ (binExp q - 1) * 2 ^ (-(p : ℤ)) := by
    rw [← zpow_add₀ (by norm_num : (2:ℚ) ≠ 0), div_eq_mul_inv, ← zpow_neg_one,
      ← zpow_add₀ (by norm_num : (2:ℚ) ≠ 0)]
    congr 1; ring
  rw [e]
  exact mul_le_mul_of_nonneg_right h (by positivity)

theorem roundPrec_le_of_le (p : ℕ) (x : ℚ) (m : ℤ) (k : ℤ) (hk : binExp x - p ≤ k)
    (h : x ≤ m * 2 ^ k) : roundPrec p x ≤ m * 2 ^ k := by
  have hu : (0 : ℚ) < 2 ^ (binExp x - p) := by positivity
  obtain ⟨n, hn⟩ := Int.eq_ofNat_of_zero_le (sub_nonneg.mpr hk)
  have e : (m : ℚ) * 2 ^ k = ((m * 2 ^ n : ℤ) : ℚ) * 2 ^ (binExp x - p) := by
    have : k = (n : ℤ) + (binExp x - p) := by omega
    rw [this, zpow_add₀ (by norm_num : (2:ℚ) ≠ 0)]
    push_cast; rw [zpow_natCast]; ring
  rw [e] at h ⊢
  rw [roundPrec_def]
  have h' : x / 2 ^ (binExp x - p) ≤ ((m * 2 ^ n : ℤ) : ℚ) := by
    rw [div_le_iff₀ hu]; exact h
  have := roundHalfEven_le_of_le _ _ h'
  exact mul_le_mul_of_nonneg_right (by exact_mod_cast this) hu.le

theorem le_roundPrec_of_le (p : ℕ) (x : ℚ) (m : ℤ) (k : ℤ) (hk : binExp x - p ≤ k)
    (h : (m : ℚ) * 2 ^ k ≤ x) : (m : ℚ) * 2 ^ k ≤ roundPrec p x := by
  have hu : (0 : ℚ) < 2 ^ (binExp x - p) := by positivity
  obtain ⟨n, hn⟩ := Int.eq_ofNat_of_zero_le (sub_nonneg.mpr hk)
  have e : (m : ℚ) * 2 ^ k = ((m * 2 ^ n : ℤ) : ℚ) * 2 ^ (binExp x - p) := by
    have : k = (n : ℤ) + (binExp x - p) := by omega
    rw [this, zpow_add₀ (by norm_num : (2:ℚ) ≠ 0)]
    push_cast; rw [zpow_natCast]; ring
  rw [e] at h ⊢
  rw [roundPrec_def]
  have h' : ((m * 2 ^ n : ℤ) : ℚ) ≤ x / 2 ^ (binExp x - p) := by
    rw [le_div_iff₀ hu]; exact h
  have := le_roundHalfEven_of_le _ _ h'
  exact mul_le_mul_of_nonneg_right (by exact_mod_cast this) hu.le

theorem roundPrec_eq_self (p : ℕ) (m : ℕ) (k : ℤ) (hm : 0 < m) (hp : m < 2 ^ p) :
    roundPrec p (m * 2 ^ k) = m * 2 ^ k := by
  have hq : (0 : ℚ) < m * 2 ^ k := by positivity
  have h1 := binExp_le _ hq
  have h2 : (m : ℚ) * 2 ^ k < 2 ^ ((p : ℤ) + k) := by
    rw [zpow_add₀ (by norm_num : (2:ℚ) ≠ 0), zpow_natCast]
    exact mul_lt_mul_of_pos_right (by exact_mod_cast hp) (by positivity)
  have h3 : binExp ((m : ℚ) * 2 ^ k) - 1 < (p : ℤ) + k :=
    (zpow_lt_zpow_iff_right₀ (by norm_num : (1:ℚ) < 2)).mp (lt_of_le_of_lt h1 h2)
  have hk : binExp ((m : ℚ) * 2 ^ k) - p ≤ k := by omega
  apply le_antisymm
  · exact roundPrec_le_of_le p _ m k hk le_rfl
  · exact le_roundPrec_of_le p _ m k hk le_rfl

theorem roundPrec_pos (p : ℕ) (x : ℚ) (hp : 1 ≤ p) (hx : 0 < x) : 0 < roundPrec p x := by
  have := le_roundPrec_of_le p x 1 (binExp x - 1) (by omega) (by simpa using binExp_le x hx)
  refine lt_of_lt_of_le ?_ this
  positivity

theorem roundPrec_le_maxFloat64 (p : ℕ) (x : ℚ) (hp : 53 ≤ p) (hx : 0 < x)
    (h : x ≤ maxFloat64) : roundPrec p x ≤ maxFloat64 := by
  have hlt : x < 2 ^ (1024 : ℤ) := lt_of_le_of_lt h (by norm_num [maxFloat64])
  have he := binExp_le_of_lt x 1024 hx hlt
  have e : maxFloat64 = ((2 ^ 53 - 1 : ℕ) : ℚ) * 2 ^ (971 : ℤ) := by
    norm_num [maxFloat64]
  rw [e] at h ⊢
  exact roundPrec_le_of_le p x _ _ (by omega) h


/-! ## Lemmas on `big.Float` and `float64` conversion -/

theorem roundPrec_eq_self_of_grid (p : ℕ) (x : ℚ) (m : ℤ) (k : ℤ) (hk : binExp x - p ≤ k)
    (h : x = m * 2 ^ k) : roundPrec p x = x :=
  le_antisymm (by nth_rewrite 2 [h]; exact roundPrec_le_of_le p x m k hk h.le)
    (by nth_rewrite 1 [h]; exact le_roundPrec_of_le p x m k hk h.ge)

theorem roundPrec_eq_self_mono (p p' : ℕ) (x : ℚ) (hpp : p ≤ p') (h : roundPrec p x = x) :
    roundPrec p' x = x :=
  roundPrec_eq_self_of_grid p' x (roundHalfEven (x / 2 ^ (binExp x - p))) (binExp x - p)
    (by omega) (by rw [← roundPrec_def, h])

theorem natAbs_lt_two_pow_bitLen (x : ℤ) : x.natAbs < 2 ^ BigFloat.bitLen x :=
  Nat.lt_size_self _

theorem roundPrec_abs_intCast (p : ℕ) (x : ℤ) (hx : x ≠ 0) (hp : BigFloat.bitLen x ≤ p) :
    roundPrec p |(x : ℚ)| = |(x : ℚ)| := by
  have h : |(x : ℚ)| = (x.natAbs : ℚ) * 2 ^ (0 : ℤ) := by
    rw [zpow_zero, mul_one, Nat.cast_natAbs, Int.cast_abs]
  rw [h]
  apply roundPrec_eq_self
  · exact Int.natAbs_pos.mpr hx
  · exact lt_of_lt_of_le (natAbs_lt_two_pow_bitLen x) (Nat.pow_le_pow_right (by norm_num) hp)

theorem SetInt_new (x : ℤ) (hx : x ≠ 0) :
    BigFloat.SetInt BigFloat.new x =
      { prec := max (BigFloat.bitLen x) 64, form := .finite, neg := decide (x < 0),
        mag := |(x : ℚ)| } := by
  simp only [BigFloat.SetInt, BigFloat.new, if_neg hx, if_true]
  rw [roundPrec_abs_intCast _ x hx (le_max_left _ _)]

theorem SetInt_new_zero :
    BigFloat.SetInt BigFloat.new 0 = { prec := 64, form := .zero, neg := false, mag := 0 } := by
  simp [BigFloat.SetInt, BigFloat.new, BigFloat.bitLen]

theorem float64Round_normal (neg : Bool) (p : ℕ) (mag : ℚ) (hp : 53 ≤ p) (h0 : 0 < mag)
    (h : mag ≤ maxFloat64) :
    BigFloat.float64Round neg p mag = .fin (signed neg (roundPrec p mag)) := by
  have h1 := roundPrec_le_maxFloat64 p mag hp h0 h
  have h2 : roundPrec p mag < 2 ^ (1024 : ℤ) := lt_of_le_of_lt h1 (by norm_num [maxFloat64])
  have h3 := binExp_le_of_lt _ 1024 (roundPrec_pos p mag (by omega) h0) h2
  simp only [BigFloat.float64Round]
  rw [if_neg (by omega)]

theorem Float64_normal (x : BigFloat) (hf : x.form = .finite)
    (h1 : (2 : ℚ) ^ (-1022 : ℤ) ≤ x.mag) (h2 : x.mag ≤ maxFloat64) :
    x.Float64 = .fin (signed x.neg (roundPrec 53 x.mag)) := by
  have h0 : 0 < x.mag := lt_of_lt_of_le (by positivity) h1
  have he := lt_binExp_of_le x.mag (-1022) h0 h1
  simp only [BigFloat.Float64, hf]
  rw [if_neg (by omega)]
  exact float64Round_normal _ 53 _ le_rfl h0 h2

/-- A value on the 53-bit grid within the normal range is its own nearest `float64`. -/
theorem ofRat_grid (m : ℕ) (k : ℤ) (hm : 0 < m) (hp : m < 2 ^ 53)
    (h1 : (2 : ℚ) ^ (-1022 : ℤ) ≤ m * 2 ^ k) (h2 : (m : ℚ) * 2 ^ k ≤ maxFloat64) :
    F64.ofRat (m * 2 ^ k) = .fin (m * 2 ^ k) := by
  have h0 : (0 : ℚ) < m * 2 ^ k := by positivity
  unfold F64.ofRat
  rw [if_neg h0.ne', Float64_normal _ rfl (by simpa [abs_of_pos h0] using h1)
    (by simpa [abs_of_pos h0] using h2)]
  simp only [abs_of_pos h0, roundPrec_eq_self 53 m k hm hp, signed]
  simp [not_lt.mpr h0.le]

theorem ofRat_natCast (n : ℕ) (h0 : 0 < n) (h : n ≤ 2 ^ 53) : F64.ofRat n = .fin n := by
  rcases Nat.eq_or_lt_of_le h with e | e
  · have := ofRat_grid 1 53 (by norm_num) (by norm_num) (by norm_num) (by norm_num [maxFloat64])
    subst e
    have e2 : ((2 ^ 53 : ℕ) : ℚ) = (1 : ℕ) * 2 ^ (53 : ℤ) := by norm_num
    rw [e2]; exact this
  · have h1 : (1 : ℚ) ≤ n := by exact_mod_cast h0
    have h2 : (n : ℚ) < 2 ^ 53 := by exact_mod_cast e
    have := ofRat_grid n 0 h0 e (by simp only [zpow_zero, mul_one]; refine le_trans ?_ h1; norm_num)
      (by simp only [zpow_zero, mul_one]; refine le_trans h2.le ?_; norm_num [maxFloat64])
    simpa using this

theorem roundPrec_of_WF (c : ℚ) (hc : 0 < c) (hwf : (F64.fin c).WF) : roundPrec 53 c = c := by
  obtain ⟨-, h⟩ := hwf
  unfold F64.ofRat at h
  rw [if_neg hc.ne'] at h
  simp only [BigFloat.Float64, abs_of_pos hc, not_lt.mpr hc.le, decide_False] at h
  have key : ∀ p : ℕ, p ≤ 53 → BigFloat.float64Round false p c = .fin c →
      roundPrec 53 c = c := by
    intro p hp hr
    simp only [BigFloat.float64Round, signed, Bool.false_eq_true, if_false] at hr
    split_ifs at hr
    simp only [F64.fin.injEq] at hr
    exact roundPrec_eq_self_mono p 53 c hp hr
  split_ifs at h with h1 h2 h3
  · simp only [signed, F64.fin.injEq, Bool.false_eq_true, if_false] at h
    rw [← h]
    have := roundPrec_eq_self 53 1 (-1074) (by norm_num) (by norm_num)
    simpa [smallestNonzeroFloat64] using this
  · exact key _ (by omega) h
  · exact key _ le_rfl h

theorem ToNativeBalance_finite (config : Config) (v : ℤ) (c : ℚ) (hv : v ≠ 0) (hc : 0 < c)
    (hwf : (F64.fin c).WF) (hcfg : config.DenomCoefficient = .fin c) :
    ToNativeBalance config v = .ok (BigFloat.Float64
      { prec := max (BigFloat.bitLen v) 64, form := .finite, neg := decide (v < 0),
        mag := roundPrec (max (BigFloat.bitLen v) 64) (|(v : ℚ)| / c) }) := by
  unfold ToNativeBalance
  rw [hcfg, SetInt_new v hv]
  simp only [BigFloat.SetFloat64, BigFloat.new, if_true, abs_of_pos hc, roundPrec_of_WF c hc hwf,
    BigFloat.Quo, not_lt.mpr hc.le, decide_False]
  simp [bind, Except.bind, pure, Except.pure]

theorem ToNativeBalance_zero (config : Config) (c : ℚ)
    (hcfg : config.DenomCoefficient = .fin c) :
    ToNativeBalance config 0 = .ok (.zero (decide (c < 0))) := by
  unfold ToNativeBalance
  rw [hcfg, SetInt_new_zero]
  simp [BigFloat.SetFloat64, BigFloat.new, BigFloat.Quo, bind, Except.bind, pure, Except.pure,
    BigFloat.Float64]

theorem roundPrec_natCast (p n : ℕ) (hp : 1 ≤ p) (h0 : 0 < n) (h : n ≤ 2 ^ p) :
    roundPrec p (n : ℚ) = n := by
  rcases Nat.eq_or_lt_of_le h with e | e
  · have := roundPrec_eq_self p 1 p (by norm_num) (Nat.one_lt_two_pow_iff.mpr (by omega))
    subst e
    have e2 : ((2 ^ p : ℕ) : ℚ) = (1 : ℕ) * 2 ^ (p : ℤ) := by
      rw [zpow_natCast]; push_cast; ring
    rw [e2]; exact this
  · have := roundPrec_eq_self p n 0 h0 e
    simpa using this

theorem Float64_natCast (P : ℕ) (neg : Bool) (n : ℕ) (h0 : 0 < n) (h : n ≤ 2 ^ 53) :
    BigFloat.Float64 { prec := P, form := .finite, neg := neg, mag := n }
      = .fin (signed neg n) := by
  have h1 : (1 : ℚ) ≤ n := by exact_mod_cast h0
  have h2 : (n : ℚ) ≤ 2 ^ 53 := by exact_mod_cast h
  rw [Float64_normal _ rfl (le_trans (by norm_num) h1) (le_trans h2 (by norm_num [maxFloat64]))]
  simp only [roundPrec_natCast 53 n (by norm_num) h0 h]

theorem rel_error_double_rounding (P : ℕ) (x : ℚ) (hP : 64 ≤ P) (hx : 0 < x) :
    |roundPrec 53 (roundPrec P x) - x| ≤ 2 ^ (-52 : ℤ) * x := by
  have hr1 := roundPrec_pos P x (by omega) hx
  have a := abs_roundPrec_sub_le_mul P x hx
  have b := abs_roundPrec_sub_le_mul 53 (roundPrec P x) hr1
  have hP' : (2 : ℚ) ^ (-(P : ℤ)) ≤ 2 ^ (-64 : ℤ) :=
    zpow_le_zpow_right₀ (by norm_num) (by omega)
  have a' : |roundPrec P x - x| ≤ x * 2 ^ (-64 : ℤ) :=
    a.trans (mul_le_mul_of_nonneg_left hP' hx.le)
  have hr : roundPrec P x ≤ x + x * 2 ^ (-64 : ℤ) := by
    have := (abs_le.mp a').2; linarith
  have b' : |roundPrec 53 (roundPrec P x) - roundPrec P x|
      ≤ (x + x * 2 ^ (-64 : ℤ)) * 2 ^ (-(53 : ℕ) : ℤ) :=
    b.trans (mul_le_mul_of_nonneg_right hr (by positivity))
  have tri : |roundPrec 53 (roundPrec P x) - x|
      ≤ |roundPrec 53 (roundPrec P x) - roundPrec P x| + |roundPrec P x - x| := by
    have := abs_add (roundPrec 53 (roundPrec P x) - roundPrec P x) (roundPrec P x - x)
    simpa using this
  refine tri.trans ((add_le_add b' a').trans ?_)
  have : (x + x * 2 ^ (-64 : ℤ)) * 2 ^ (-(53 : ℕ) : ℤ) + x * 2 ^ (-64 : ℤ)
      = (((1 : ℚ) + 2 ^ (-64 : ℤ)) * 2 ^ (-(53 : ℕ) : ℤ) + 2 ^ (-64 : ℤ)) * x := by ring
  rw [this]
  exact mul_le_mul_of_nonneg_right (by norm_num) hx.le

theorem ToNativeBalance_multiple (config : Config) (v : ℤ) (c : ℚ) (hv : 0 ≤ v) (hc : 0 < c)
    (hwf : (F64.fin c).WF) (hcfg : config.DenomCoefficient = .fin c) :
    ∀ q : ℕ, q ≤ 2 ^ 53 → (v : ℚ) = q * c →
      ToNativeBalance config v = .ok (F64.exact q) := by
  have hvq : (0 : ℚ) ≤ v := by exact_mod_cast hv
  intro q hq hvc
  rcases Nat.eq_zero_or_pos q with rfl | hq0
  · have : v = 0 := by simpa using hvc
    subst this
    rw [ToNativeBalance_zero config c hcfg]
    simp [F64.exact, not_lt.mpr hc.le]
  · have hv0 : v ≠ 0 := by
      rintro rfl
      have : (0 : ℚ) < q * c := by positivity
      simp at hvc
      rcases hvc with h | h
      · omega
      · exact hc.ne' h
    have hx : |(v : ℚ)| / c = q := by
      rw [abs_of_nonneg hvq, hvc]; field_simp
    have hvneg : ¬ v < 0 := not_lt.mpr hv
    rw [ToNativeBalance_finite config v c hv0 hc hwf hcfg, hx,
      roundPrec_natCast _ q (by have := le_max_right (BigFloat.bitLen v) 64; omega) hq0
        (hq.trans (Nat.pow_le_pow_right (by norm_num)
          ((by norm_num : 53 ≤ 64).trans (le_max_right _ _)))),
      Float64_natCast _ _ q hq0 hq]
    have hq' : (q : ℚ) ≠ 0 := by exact_mod_cast hq0.ne'
    simp [signed, hvneg, F64.exact, hq']

/-- C1: for a non-negative integer `v` and a positive finite `float64` coefficient `c`,
`ToNativeBalance` returns (it never panics) the quotient `v / c` up to `float64`
rounding: when `v / c` lies in the normal range `[2^-1022, MaxFloat64]` the result is a
finite `r` with `|r - v/c| ≤ 2^-52 * (v/c)`; when `v = q * c` with `0 ≤ q ≤ 2^53` the
result is exactly `q`; and `v = c = 10_000_000_000` gives exactly `1.0`. No bound on `v`
is assumed, so the statement covers `v` above `2^53`. -/
theorem ToNativeBalance_quotient (config : Config) (v : ℤ) (c : ℚ) (hv : 0 ≤ v) (hc : 0 < c)
    (hwf : (F64.fin c).WF) (hcfg : config.DenomCoefficient = .fin c) :
    (∃ f, ToNativeBalance config v = .ok f)
    ∧ ((2 : ℚ) ^ (-1022 : ℤ) ≤ v / c → (v : ℚ) / c ≤ maxFloat64 →
        ∃ r, ToNativeBalance config v = .ok (.fin r) ∧
          |r - v / c| ≤ 2 ^ (-52 : ℤ) * (v / c))
    ∧ (∀ q : ℕ, q ≤ 2 ^ 53 → (v : ℚ) = q * c →
        ToNativeBalance config v = .ok (F64.exact q))
    ∧ (v = 10000000000 → c = 10000000000 → ToNativeBalance config v = .ok (.fin 1)) := by
  have hvq : (0 : ℚ) ≤ v := by exact_mod_cast hv
  have exact := ToNativeBalance_multiple config v c hv hc hwf hcfg
  refine ⟨?_, ?_, exact, ?_⟩
  · rcases eq_or_ne v 0 with rfl | hv0
    · exact ⟨_, ToNativeBalance_zero config c hcfg⟩
    · exact ⟨_, ToNativeBalance_finite config v c hv0 hc hwf hcfg⟩
  · intro h1 h2
    have hx : (0 : ℚ) < v / c := lt_of_lt_of_le (by positivity) h1
    have hv0 : v ≠ 0 := by
      rintro rfl; simp at hx
    have hvneg : ¬ v < 0 := not_lt.mpr hv
    have hP : 64 ≤ max (BigFloat.bitLen v) 64 := le_max_right _ _
    rw [ToNativeBalance_finite config v c hv0 hc hwf hcfg, abs_of_nonneg hvq]
    have e1 := lt_binExp_of_le _ (-1022) hx h1
    have l1 : (2 : ℚ) ^ (-1022 : ℤ) ≤ roundPrec (max (BigFloat.bitLen v) 64) (v / c) := by
      have := le_roundPrec_of_le (max (BigFloat.bitLen v) 64) (v / c) 1 (binExp (v / c) - 1)
        (by omega) (by simpa using binExp_le _ hx)
      refine le_trans ?_ this
      simp only [Int.cast_one, one_mul]
      exact zpow_le_zpow_right₀ (by norm_num) (by omega)
    have l2 := roundPrec_le_maxFloat64 (max (BigFloat.bitLen v) 64) (v / c) (by omega) hx h2
    rw [Float64_normal _ rfl l1 l2]
    refine ⟨_, rfl, ?_⟩
    simp only [signed, hvneg, decide_False, Bool.false_eq_true, if_false]
    exact rel_error_double_rounding _ _ hP hx
  · intro e1 e2
    have := exact 1 (by norm_num) (by subst e1 e2; norm_num)
    simpa [F64.exact] using this

theorem WF_natCast (n : ℕ) (h0 : 0 < n) (h : n ≤ 2 ^ 53) : (F64.fin (n : ℚ)).WF :=
  ⟨by exact_mod_cast h0.ne', ofRat_natCast n h0 h⟩

/-- Witness for C1 at `v = c = 10_000_000_000`. -/
theorem ToNativeBalance_quotient_witness :
    (0 : ℤ) ≤ 10000000000 ∧ (0 : ℚ) < 10000000000 ∧ (F64.fin 10000000000).WF ∧
    ToNativeBalance { NewConfig with DenomCoefficient := .fin 10000000000 } 10000000000
      = .ok (.fin 1) :=
  ⟨by norm_num, by norm_num, by simpa using WF_natCast 10000000000 (by norm_num) (by norm_num),
    (ToNativeBalance_quotient { NewConfig with DenomCoefficient := .fin 10000000000 }
      10000000000 10000000000 (by norm_num) (by norm_num)
      (by simpa using WF_natCast 10000000000 (by norm_num) (by norm_num)) rfl).2.2.2 rfl rfl⟩

/-! ## utils.go: zero coefficient, the unit test, and `BigIntToFloat` -/

theorem ToNativeBalance_zero_coefficient (config : Config) (neg : Bool) (v : ℤ)
    (hcfg : config.DenomCoefficient = .zero neg) :
    ToNativeBalance config v =
      if v = 0 then .error "ErrNaN: division of zero by zero or infinity by infinity"
      else .ok (.inf (decide (v < 0) != neg)) := by
  unfold ToNativeBalance
  rw [hcfg]
  by_cases hv : v = 0
  · subst hv
    rw [SetInt_new_zero]
    simp [BigFloat.SetFloat64, BigFloat.new, BigFloat.Quo, bind, Except.bind]
  · rw [SetInt_new v hv, if_neg hv]
    simp [BigFloat.SetFloat64, BigFloat.new, BigFloat.Quo, bind, Except.bind, pure, Except.pure,
      BigFloat.Float64]

/-- C2 (the code fails its own test): in the state the unit test runs in, `config` being
`NewConfig()`, the coefficient is `+0`, `ToNativeBalance(10000000000)` returns `+Inf`,
not `1.0`, and `TestToNativeBalance` fails. -/
theorem TestToNativeBalance_fails :
    NewConfig.DenomCoefficient = .zero false ∧
    ToNativeBalance NewConfig 10000000000 = .ok (.inf false) ∧
    TestToNativeBalance NewConfig = false := by
  have h := ToNativeBalance_zero_coefficient NewConfig false 10000000000 rfl
  simp only [show (10000000000 : ℤ) ≠ 0 by norm_num, if_false,
    show ¬ (10000000000 : ℤ) < 0 by norm_num, decide_False, bne_self_eq_false] at h
  refine ⟨rfl, h, ?_⟩
  simp [TestToNativeBalance, h]

/-- C3 (as stated, refuted): with the coefficient `+0` of `NewConfig()`, the input `0`
makes `ToNativeBalance` panic (0/0 in `big.Float.Quo`), and the input `-1` gives `-Inf`;
neither is `+Inf`. -/
theorem ToNativeBalance_zero_coefficient_counterexample :
    ToNativeBalance NewConfig 0
      = .error "ErrNaN: division of zero by zero or infinity by infinity" ∧
    ToNativeBalance NewConfig (-1) = .ok (.inf true) := by
  constructor
  · simpa using ToNativeBalance_zero_coefficient NewConfig false 0 rfl
  · simpa using ToNativeBalance_zero_coefficient NewConfig false (-1) rfl

/-- C3 (amended): when the coefficient is a zero, `ToNativeBalance(v)` returns an infinity
without panicking for every non-zero `v`: `+Inf` for `v > 0` and `-Inf` for `v < 0` when
the coefficient is `+0` (signs exchanged for `-0`); for `v = 0` it panics. -/
theorem ToNativeBalance_zero_coefficient_inf (config : Config) (neg : Bool) (v : ℤ)
    (hcfg : config.DenomCoefficient = .zero neg) :
    (0 < v → ToNativeBalance config v = .ok (.inf neg)) ∧
    (v < 0 → ToNativeBalance config v = .ok (.inf (!neg))) ∧
    (v = 0 → ToNativeBalance config v
      = .error "ErrNaN: division of zero by zero or infinity by infinity") := by
  rw [ToNativeBalance_zero_coefficient config neg v hcfg]
  refine ⟨fun h => ?_, fun h => ?_, fun h => ?_⟩
  · rw [if_neg h.ne']; simp [not_lt.mpr h.le]
  · rw [if_neg h.ne]; simp [h]
  · rw [if_pos h]

/-- Witness for C3 (amended): `NewConfig()` has coefficient `+0` and the balance `5`
converts to `+Inf`. -/
theorem ToNativeBalance_zero_coefficient_inf_witness :
    NewConfig.DenomCoefficient = .zero false ∧ ToNativeBalance NewConfig 5 = .ok (.inf false) :=
  ⟨rfl, (ToNativeBalance_zero_coefficient_inf NewConfig false 5 rfl).1 (by norm_num)⟩

theorem BigIntToFloat_of_ne_zero (v : ℤ) (hv : v ≠ 0) :
    BigIntToFloat v = BigFloat.Float64
      { prec := max (BigFloat.bitLen v) 64, form := .finite, neg := decide (v < 0),
        mag := |(v : ℚ)| } := by
  unfold BigIntToFloat
  rw [SetInt_new v hv]

theorem BigIntToFloat_zero : BigIntToFloat 0 = .zero false := by
  unfold BigIntToFloat
  rw [SetInt_new_zero]
  rfl

/-- C4: `BigIntToFloat` narrows without scaling. It takes no configuration at all (the
source function reads no global), so its result cannot depend on the coefficient; it is
exactly `v` whenever `|v| ≤ 2^53`; and for every integer `v` it is what `ToNativeBalance`
returns under the coefficient `1`. -/
theorem BigIntToFloat_narrow (v : ℤ) :
    (|v| ≤ 2 ^ 53 → BigIntToFloat v = F64.exact v) ∧
    (∀ config : Config, config.DenomCoefficient = .fin 1 →
      ToNativeBalance config v = .ok (BigIntToFloat v)) := by
  constructor
  · intro h
    rcases eq_or_ne v 0 with rfl | hv
    · rw [BigIntToFloat_zero]; simp [F64.exact]
    · have hn : v.natAbs ≤ 2 ^ 53 := by
        have : (v.natAbs : ℤ) ≤ 2 ^ 53 := by rw [Int.natCast_natAbs]; exact h
        exact_mod_cast this
      have habs : |(v : ℚ)| = (v.natAbs : ℚ) := by
        rw [Nat.cast_natAbs, Int.cast_abs]
      rw [BigIntToFloat_of_ne_zero v hv, habs,
        Float64_natCast _ _ _ (Int.natAbs_pos.mpr hv) hn, ← habs]
      have hq : (v : ℚ) ≠ 0 := by exact_mod_cast hv
      rcases lt_or_gt_of_ne hv with h1 | h1
      · have : (v : ℚ) < 0 := by exact_mod_cast h1
        simp [signed, h1, F64.exact, hq, abs_of_neg this]
      · have : (0 : ℚ) < v := by exact_mod_cast h1
        simp [signed, not_lt.mpr h1.le, F64.exact, hq, abs_of_pos this]
  · intro config hcfg
    rcases eq_or_ne v 0 with rfl | hv
    · rw [ToNativeBalance_zero config 1 hcfg, BigIntToFloat_zero]; simp
    · have hwf : (F64.fin 1).WF := by simpa using WF_natCast 1 (by norm_num) (by norm_num)
      rw [ToNativeBalance_finite config v 1 hv (by norm_num) hwf hcfg,
        BigIntToFloat_of_ne_zero v hv, div_one,
        roundPrec_abs_intCast _ v hv (le_max_left _ _)]

/-! ## network.go: `setDenom` -/

theorem setDenom_override_eq (config : Config) (answer : Except String (List Metadata))
    (h : config.Denom ≠ "" ∧ config.DenomCoefficient.isNonZero = true) :
    setDenom config answer = .ok { err := none, config := config, queried := false } := by
  unfold setDenom
  rw [if_pos h]

/-- C5: when `config.Denom` is non-empty and `config.DenomCoefficient != 0`, `setDenom`
returns nil without issuing the denom-metadata query and leaves `config` as it was,
whatever the backend would have answered. -/
theorem setDenom_override (config : Config) (answer : Except String (List Metadata))
    (hd : config.Denom ≠ "") (hc : config.DenomCoefficient.isNonZero = true) :
    setDenom config answer = .ok { err := none, config := config, queried := false } := by
  unfold setDenom
  rw [if_pos ⟨hd, hc⟩]

/-- Witness for C5: denom `atom` with coefficient 100, and a backend that would fail. -/
theorem setDenom_override_witness :
    setDenom { NewConfig with Denom := "atom", DenomCoefficient := .fin 100 }
        (.error "unavailable")
      = .ok { err := none,
              config := { NewConfig with Denom := "atom", DenomCoefficient := .fin 100 },
              queried := false } :=
  setDenom_override _ _ (by decide) (by simp [F64.isNonZero])

theorem setDenom_empty (config : Config)
    (h : config.Denom = "" ∨ config.DenomCoefficient.isNonZero = false) :
    setDenom config (.ok []) =
      .ok { err := some ("No denom infos. Try running the binary with --denom and " ++
              "--denom-coefficient to set them manually."),
            config := config, queried := true } := by
  unfold setDenom
  have : ¬ (config.Denom ≠ "" ∧ config.DenomCoefficient.isNonZero = true) := by
    rintro ⟨h1, h2⟩
    rcases h with h | h
    · exact h1 h
    · rw [h] at h2; exact Bool.false_ne_true h2
  rw [if_neg this]
  rfl

/-- C6: without a full override (`config.Denom` empty or the coefficient zero), a
denom-metadata answer with zero entries makes `setDenom` return an error; it returns (no
index into the empty list is taken) and `config` is unchanged. -/
theorem setDenom_no_entries (config : Config)
    (h : config.Denom = "" ∨ config.DenomCoefficient.isNonZero = false) :
    ∃ msg, setDenom config (.ok [])
      = .ok { err := some msg, config := config, queried := true } :=
  ⟨_, setDenom_empty config h⟩

/-- Witness for C6: the configuration of `NewConfig()`, whose denom is empty. -/
theorem setDenom_no_entries_witness :
    ∃ msg, setDenom NewConfig (.ok [])
      = .ok { err := some msg, config := NewConfig, queried := true } :=
  setDenom_no_entries NewConfig (Or.inl rfl)

theorem setDenomUnits_eq (config : Config) (units : List DenomUnit) :
    setDenomUnits config units =
      match units.find? (fun u => decide (u.Denom = config.Denom)) with
      | some unit => (none, { config with DenomCoefficient := Pow10 (unit.Exponent : ℤ) })
      | none => (some "could not find denom info", config) := by
  induction units with
  | nil => rfl
  | cons u rest ih =>
    by_cases h : u.Denom = config.Denom
    · simp [setDenomUnits, List.find?, h]
    · simp [setDenomUnits, List.find?, h, ih]

theorem setDenom_nonempty (config : Config) (metadata : Metadata) (rest : List Metadata)
    (hd : config.Denom = "") :
    setDenom config (.ok (metadata :: rest)) =
      .ok { err := (setDenomUnits { config with Denom := metadata.Display }
                      metadata.DenomUnits).1,
            config := (setDenomUnits { config with Denom := metadata.Display }
                      metadata.DenomUnits).2,
            queried := true } := by
  unfold setDenom
  simp [hd]

theorem ofSignMag_grid (neg : Bool) (m : ℕ) (k : ℤ) (hm : 0 < m) (hp : m < 2 ^ 53)
    (h1 : (2 : ℚ) ^ (-1022 : ℤ) ≤ m * 2 ^ k) (h2 : (m : ℚ) * 2 ^ k ≤ maxFloat64) :
    F64.ofSignMag neg (m * 2 ^ k) = .fin (signed neg (m * 2 ^ k)) := by
  have h0 : (0 : ℚ) < m * 2 ^ k := by positivity
  unfold F64.ofSignMag
  rw [if_neg h0.ne', Float64_normal _ rfl h1 h2]
  simp only [roundPrec_eq_self 53 m k hm hp]

theorem ten_pow_grid (n : ℕ) (hn : n ≤ 22) :
    ((10 : ℚ) ^ n = ((5 ^ n : ℕ) : ℚ) * 2 ^ (n : ℤ)) ∧ 0 < 5 ^ n ∧ 5 ^ n < 2 ^ 53 ∧
    (2 : ℚ) ^ (-1022 : ℤ) ≤ (10 : ℚ) ^ n ∧ (10 : ℚ) ^ n ≤ maxFloat64 := by
  have h5 : 5 ^ n ≤ 5 ^ 22 := Nat.pow_le_pow_right (by norm_num) hn
  have h10 : (10 : ℚ) ^ n ≤ 10 ^ 22 := pow_le_pow_right₀ (by norm_num) hn
  have h1 : (1 : ℚ) ≤ 10 ^ n := one_le_pow₀ (by norm_num)
  refine ⟨?_, by positivity, lt_of_le_of_lt h5 (by norm_num), le_trans (by norm_num) h1,
    le_trans h10 (by norm_num [maxFloat64])⟩
  rw [zpow_natCast]; push_cast; rw [← mul_pow]; norm_num

theorem Pow10_exact (n : ℕ) (hn : n ≤ 22) : Pow10 (n : ℤ) = .fin (10 ^ n) := by
  obtain ⟨e, h0, hp, h1, h2⟩ := ten_pow_grid n hn
  have tab : pow10tab n = .fin (10 ^ n) := by
    unfold pow10tab
    rw [e] at h1 h2 ⊢
    exact ofRat_grid _ _ h0 hp h1 h2
  have post : pow10postab32 0 = .fin 1 := by
    simpa [pow10postab32] using ofRat_natCast 1 (by norm_num) (by norm_num)
  unfold Pow10
  rw [if_pos ⟨by omega, by omega⟩]
  have d : (n : ℤ).toNat / 32 = 0 := by simp; omega
  have r : (n : ℤ).toNat % 32 = n := by simp; omega
  rw [d, r, tab, post]
  have pos : (0 : ℚ) < 10 ^ n := by positivity
  simp only [F64.mul, F64.signbit, one_mul, abs_of_pos pos, not_lt.mpr pos.le,
    show ¬ (1 : ℚ) < 0 by norm_num, decide_False, bne_self_eq_false]
  have := ofSignMag_grid false _ _ h0 hp (by rw [← e]; exact h1) (by rw [← e]; exact h2)
  rw [← e] at this
  simpa [signed] using this

theorem Pow10_overflow (n : ℕ) (hn : 308 < n) : Pow10 (n : ℤ) = .inf false := by
  unfold Pow10
  rw [if_neg (by omega), if_neg (by omega), if_pos (by omega)]

/-- C7 (as stated, refuted): with an empty `config.Denom` and a first entry whose display
unit has exponent 309, `setDenom` returns nil with the coefficient `+Inf`
(`math.Pow10(309)`), which is not `10^309`. -/
theorem setDenom_first_entry_counterexample :
    setDenom NewConfig (.ok [hugeExponentMetadata])
      = .ok { err := none,
              config := { NewConfig with Denom := "atom", DenomCoefficient := .inf false },
              queried := true } ∧
    F64.inf false ≠ F64.fin (10 ^ 309) := by
  refine ⟨?_, by simp⟩
  rw [setDenom_nonempty NewConfig hugeExponentMetadata [] rfl, setDenomUnits_eq]
  have := Pow10_overflow 309 (by norm_num)
  simp only [Nat.cast_ofNat] at this
  simp [hugeExponentMetadata, List.find?, this]

/-- C7 (amended): with an empty `config.Denom` and a non-empty denom-metadata answer,
`setDenom` uses only the first entry. When that entry has a unit named as its `Display`,
`setDenom` returns nil with `config.Denom` the `Display` and the coefficient
`math.Pow10(e)` for the exponent `e` of the first such unit, which is exactly `10^e` when
`e ≤ 22` and `+Inf` when `e > 308`; when it has no such unit, `setDenom` returns an
error. The entries after the first do not influence the result. -/
theorem setDenom_first_entry (config : Config) (metadata : Metadata) (rest : List Metadata)
    (hd : config.Denom = "") :
    (∀ unit,
      metadata.DenomUnits.find? (fun u => decide (u.Denom = metadata.Display)) = some unit →
      setDenom config (.ok (metadata :: rest))
          = .ok { err := none,
                  config := { config with Denom := metadata.Display,
                                          DenomCoefficient := Pow10 (unit.Exponent : ℤ) },
                  queried := true } ∧
      (unit.Exponent ≤ 22 → Pow10 (unit.Exponent : ℤ) = .fin (10 ^ unit.Exponent)) ∧
      (308 < unit.Exponent → Pow10 (unit.Exponent : ℤ) = .inf false)) ∧
    (metadata.DenomUnits.find? (fun u => decide (u.Denom = metadata.Display)) = none →
      ∃ msg, setDenom config (.ok (metadata :: rest))
          = .ok { err := some msg, config := { config with Denom := metadata.Display },
                  queried := true }) ∧
    setDenom config (.ok (metadata :: rest)) = setDenom config (.ok [metadata]) := by
  refine ⟨fun unit hu => ⟨?_, Pow10_exact _, Pow10_overflow _⟩, fun hu => ?_, ?_⟩
  · rw [setDenom_nonempty config metadata rest hd, setDenomUnits_eq]
    simp only [hu]
  · rw [setDenom_nonempty config metadata rest hd, setDenomUnits_eq]
    simp only [hu]
    exact ⟨_, rfl⟩
  · rw [setDenom_nonempty config metadata rest hd, setDenom_nonempty config metadata [] hd]

/-- Witness for C7 (amended): `NewConfig()` and a first entry whose display unit `atom`
has exponent 6, followed by another entry: the coefficient becomes `10^6`. -/
theorem setDenom_first_entry_witness :
    NewConfig.Denom = "" ∧
    setDenom NewConfig (.ok [atomMetadata, hugeExponentMetadata])
      = .ok { err := none,
              config := { NewConfig with Denom := "atom", DenomCoefficient := .fin 1000000 },
              queried := true } := by
  refine ⟨rfl, ?_⟩
  have h := (setDenom_first_entry NewConfig atomMetadata [hugeExponentMetadata] rfl).1
    { Denom := "atom", Exponent := 6 } (by simp [atomMetadata, List.find?])
  rw [h.1, h.2.1 (by norm_num)]
  simp [atomMetadata]
  norm_num

/-! ## main.go: `Execute` -/

theorem Execute_starts_server (config : Config) (env : Startup) (chainId : String)
    (denom : SetDenomResult)
    (hl : env.ParseLevel config.LogLevel = none) (hdial : env.Dial = none)
    (hnew : env.rpc.New = none) (hstatus : env.rpc.Status = .ok chainId)
    (hdenom : setDenom config env.DenomsMetadata = .ok denom) :
    (Execute config env).steps
      = [.setChainID none, .setDenom denom.err, .NewServer denom.config.ListenAddress, .Start] := by
  simp [Execute, hl, hdial, setChainID, hnew, hstatus, hdenom]

/-- C8 (the code does not do what the claim says): in a start-up where the node reports
no denom metadata and no override is configured, `setDenom` returns an error, and
`Execute`, which discards it, goes on to create the server and to call `Start`. -/
theorem Execute_ignores_setDenom_error :
    (∃ msg, setDenom NewConfig noDenomStartup.DenomsMetadata
        = .ok { err := some msg, config := NewConfig, queried := true } ∧
      (Execute NewConfig noDenomStartup).steps
        = [.setChainID none, .setDenom (some msg), .NewServer "", .Start]) ∧
    Step.Start ∈ (Execute NewConfig noDenomStartup).steps := by
  have h := setDenom_empty NewConfig (Or.inl rfl)
  have hs := Execute_starts_server NewConfig noDenomStartup "cudos-1" _ rfl rfl rfl rfl h
  refine ⟨⟨_, h, hs⟩, ?_⟩
  rw [hs]; simp

/-! ## Registry lemmas -/

theorem Registry.filter_Set (r : Registry) (w : Series) (n : String) :
    (Registry.Set r w).filter (fun s => decide (s.name = n)) =
      if w.name = n then Registry.Set (r.filter (fun s => decide (s.name = n))) w
      else r.filter (fun s => decide (s.name = n)) := by
  have key : ∀ s : Series,
      (if s.name = w.name ∧ s.labels = w.labels then w else s).name = s.name := by
    intro s; split_ifs with h
    · exact h.1.symm
    · rfl
  have hany : w.name = n →
      (r.filter (fun s => decide (s.name = n))).any
          (fun s => decide (s.name = w.name ∧ s.labels = w.labels))
        = r.any (fun s => decide (s.name = w.name ∧ s.labels = w.labels)) := by
    intro hw
    rw [List.any_filter]
    congr 1; funext s
    by_cases h : s.name = n <;> simp [h, hw]
  have hmap : (r.map fun s => if s.name = w.name ∧ s.labels = w.labels then w else s).filter
        (fun s => decide (s.name = n))
      = (r.filter (fun s => decide (s.name = n))).map
          (fun s => if s.name = w.name ∧ s.labels = w.labels then w else s) := by
    rw [List.filter_map]
    congr 1
    apply List.filter_congr
    intro s _
    simp [key s]
  unfold Registry.Set
  by_cases hw : w.name = n
  · rw [if_pos hw, hany hw]
    split_ifs with ha
    · exact hmap
    · simp [List.filter_append, hw]
  · rw [if_neg hw]
    split_ifs with ha
    · rw [hmap]
      conv_rhs => rw [← List.map_id (r.filter (fun s => decide (s.name = n)))]
      apply List.map_congr_left
      intro s hs
      have hsn : s.name = n := by simpa using (List.mem_filter.mp hs).2
      have : ¬ (s.name = w.name ∧ s.labels = w.labels) := by
        rintro ⟨h1, -⟩; exact hw (h1.symm.trans hsn)
      simp [this]
    · simp [List.filter_append, hw]

theorem Registry.filter_apply (writes : List Series) (r : Registry) (n : String) :
    (Registry.apply r writes).filter (fun s => decide (s.name = n)) =
      Registry.apply (r.filter (fun s => decide (s.name = n)))
        (writes.filter (fun s => decide (s.name = n))) := by
  induction writes generalizing r with
  | nil => rfl
  | cons w ws ih =>
    have h := ih (Registry.Set r w)
    simp only [Registry.apply, List.foldl_cons] at h ⊢
    rw [h, Registry.filter_Set]
    by_cases hw : w.name = n
    · simp [List.filter_cons, hw]
    · simp [List.filter_cons, hw]

/-! ## general.go: total supply -/

theorem ofRat_intCast (a : ℤ) (ha : a ≠ 0) (h : |(a : ℚ)| ≤ maxFloat64) :
    F64.ofRat a = .fin (signed (decide ((a : ℚ) < 0)) (roundPrec 53 |(a : ℚ)|)) := by
  have hq : (a : ℚ) ≠ 0 := by exact_mod_cast ha
  have h1 : (1 : ℚ) ≤ |(a : ℚ)| := by
    have : (1 : ℤ) ≤ |a| := Int.one_le_abs ha
    exact_mod_cast this
  have h3 : (2 : ℚ) ^ (-1022 : ℤ) ≤ 1 := by
    rw [zpow_neg]
    apply inv_le_one_of_one_le₀
    exact one_le_zpow₀ (by norm_num) (by norm_num)
  have h2 : (2 : ℚ) ^ (-1022 : ℤ) ≤ |(a : ℚ)| := le_trans h3 h1
  unfold F64.ofRat
  rw [if_neg hq]
  exact Float64_normal _ rfl h2 h

theorem ParseFloat_intCast (a : ℤ) (h : |a| < 2 ^ 256) :
    ParseFloat (a : ℚ) = (F64.ofRat a, none) := by
  rcases eq_or_ne a 0 with rfl | ha
  · simp [ParseFloat, F64.ofRat]
  · have hb : |(a : ℚ)| ≤ maxFloat64 := by
      have : |(a : ℚ)| < 2 ^ 256 := by exact_mod_cast h
      exact le_trans this.le (by norm_num [maxFloat64])
    simp only [ParseFloat, ofRat_intCast a ha hb]

theorem totalSupplyTask_eq (b : GeneralBackend) (Supply : List Coin)
    (hb : b.TotalSupply = .ok Supply) (hrange : ∀ coin ∈ Supply, |coin.Amount| < 2 ^ 256) :
    totalSupplyTask b = Supply.map fun coin =>
      { name := "cosmos_general_supply_total", labels := [("denom", coin.Denom)],
        value := F64.ofRat coin.Amount } := by
  unfold totalSupplyTask
  rw [hb]
  simp only
  clear hb
  induction Supply with
  | nil => rfl
  | cons coin rest ih =>
    have h1 := ParseFloat_intCast coin.Amount (hrange coin (List.mem_cons_self _ _))
    have h2 := ih (fun c hc => hrange c (List.mem_cons_of_mem _ hc))
    simp only [List.filterMap_cons, h1, List.map_cons, h2]

theorem tokenPriceLoop_name (coinGecko : ℕ → String → PriceReply) (tokens : List String)
    (i : ℕ) : ∀ s ∈ tokenPriceLoop coinGecko i tokens, s.name = "cosmos_token_price" := by
  induction tokens generalizing i with
  | nil => intro s hs; simp [tokenPriceLoop] at hs
  | cons token rest ih =>
    intro s hs
    unfold tokenPriceLoop at hs
    split at hs
    · simp only [List.mem_cons] at hs
      rcases hs with rfl | rfl | hs
      · rfl
      · rfl
      · exact ih _ s hs
    · simp at hs

theorem filter_eq_nil_of_name (ws : List Series) (m n : String) (hmn : m ≠ n)
    (h : ∀ s ∈ ws, s.name = m) : ws.filter (fun s => decide (s.name = n)) = [] := by
  rw [List.filter_eq_nil_iff]
  intro s hs
  simp [h s hs, hmn]

theorem filter_eq_self_of_name (ws : List Series) (n : String)
    (h : ∀ s ∈ ws, s.name = n) : ws.filter (fun s => decide (s.name = n)) = ws := by
  rw [List.filter_eq_self]
  intro s hs
  simp [h s hs]

theorem stakingPoolTask_filter (b : GeneralBackend) :
    (stakingPoolTask b).filter (fun s => decide (s.name = "cosmos_general_supply_total")) = [] := by
  unfold stakingPoolTask
  split <;> simp [List.filter]

theorem communityPoolTask_filter (config : Config) (b : GeneralBackend) :
    (communityPoolTask config b).filter
      (fun s => decide (s.name = "cosmos_general_supply_total")) = [] := by
  apply filter_eq_nil_of_name _ "cosmos_general_community_pool" _ (by decide)
  intro s hs
  unfold communityPoolTask at hs
  split at hs
  · simp at hs
  · rw [List.mem_filterMap] at hs
    obtain ⟨coin, -, h⟩ := hs
    split at h
    · simp at h
    · simp only [Option.some.injEq] at h; rw [← h]

theorem totalSupplyTask_name (b : GeneralBackend) :
    ∀ s ∈ totalSupplyTask b, s.name = "cosmos_general_supply_total" := by
  intro s hs
  unfold totalSupplyTask at hs
  split at hs
  · simp at hs
  · rw [List.mem_filterMap] at hs
    obtain ⟨coin, -, h⟩ := hs
    split at h
    · simp at h
    · simp only [Option.some.injEq] at h; rw [← h]

theorem GeneralHandler_supply_series (config : Config) (b : GeneralBackend) :
    (GeneralHandler config b).filter (fun s => decide (s.name = "cosmos_general_supply_total"))
      = Registry.apply [] (totalSupplyTask b) := by
  unfold GeneralHandler
  rw [Registry.filter_apply]
  simp only [List.filter_append, stakingPoolTask_filter, communityPoolTask_filter,
    filter_eq_self_of_name _ _ (totalSupplyTask_name b),
    filter_eq_nil_of_name _ "cosmos_token_price" "cosmos_general_supply_total" (by decide)
      (tokenPriceLoop_name b.coinGecko config.TokenPrices 0),
    tokenPriceTask, List.nil_append, List.append_nil]
  rfl

/-- C9: in `GeneralHandler`, on a successful total-supply answer (amounts within the range
of `sdk.Int`), the total-supply task writes, for every coin in order, the gauge
`cosmos_general_supply_total` under the label `denom` = the coin's own denom with the
value the nearest `float64` to the coin's raw amount, not divided by the coefficient; the
series of that gauge in the rendered registry are exactly the result of these writes, and
they are the same under every configuration. -/
theorem GeneralHandler_totalSupply (config : Config) (b : GeneralBackend) (Supply : List Coin)
    (hb : b.TotalSupply = .ok Supply) (hrange : ∀ coin ∈ Supply, |coin.Amount| < 2 ^ 256) :
    totalSupplyTask b = (Supply.map fun coin =>
      { name := "cosmos_general_supply_total", labels := [("denom", coin.Denom)],
        value := F64.ofRat coin.Amount }) ∧
    (GeneralHandler config b).filter (fun s => decide (s.name = "cosmos_general_supply_total"))
      = Registry.apply [] (Supply.map fun coin =>
          { name := "cosmos_general_supply_total", labels := [("denom", coin.Denom)],
            value := F64.ofRat coin.Amount }) ∧
    (∀ config' : Config,
      (GeneralHandler config' b).filter
          (fun s => decide (s.name = "cosmos_general_supply_total"))
        = (GeneralHandler config b).filter
          (fun s => decide (s.name = "cosmos_general_supply_total"))) := by
  have h := totalSupplyTask_eq b Supply hb hrange
  refine ⟨h, ?_, fun config' => ?_⟩
  · rw [GeneralHandler_supply_series, h]
  · rw [GeneralHandler_supply_series, GeneralHandler_supply_series]

/-- Witness for C9: total supply `[{uatom, 5000000}]` under denom `uatom` and coefficient
`1_000_000` renders `cosmos_general_supply_total{denom="uatom"} 5000000`. -/
theorem GeneralHandler_totalSupply_witness :
    uatomConfig.DenomCoefficient = .fin 1000000 ∧
    (GeneralHandler uatomConfig uatomBackend).filter
        (fun s => decide (s.name = "cosmos_general_supply_total"))
      = [{ name := "cosmos_general_supply_total", labels := [("denom", "uatom")],
           value := .fin 5000000 }] := by
  refine ⟨rfl, ?_⟩
  rw [(GeneralHandler_totalSupply uatomConfig uatomBackend
    [{ Denom := "uatom", Amount := 5000000 }] rfl (by
      intro coin hc
      simp only [List.mem_singleton] at hc
      subst hc
      norm_num)).2.1]
  have := ofRat_natCast 5000000 (by norm_num) (by norm_num)
  simp only [Nat.cast_ofNat] at this
  simp [Registry.apply, Registry.Set, this]

/-! ## gravity-bridge.go: partial failure -/

theorem Registry.apply_same_key (n : String) (l : List (String × String)) (v0 : F64)
    (vs : List F64) :
    Registry.apply [{ name := n, labels := l, value := v0 }]
        (vs.map fun v => { name := n, labels := l, value := v })
      = [{ name := n, labels := l, value := (v0 :: vs).getLast (by simp) }] := by
  induction vs generalizing v0 with
  | nil => rfl
  | cons v rest ih =>
    have h := ih v
    simp only [Registry.apply, List.map_cons, List.foldl_cons] at h ⊢
    have hs : Registry.Set [{ name := n, labels := l, value := v0 }]
        { name := n, labels := l, value := v } = [{ name := n, labels := l, value := v }] := by
      simp [Registry.Set]
    rw [hs, h]
    simp [List.getLast_cons]

theorem Registry.apply_nil_same_key (n : String) (l : List (String × String)) (vs : List F64) :
    Registry.apply [] (vs.map fun v => { name := n, labels := l, value := v })
      = match vs.getLast? with
        | none => []
        | some v => [{ name := n, labels := l, value := v }] := by
  cases vs with
  | nil => rfl
  | cons v rest =>
    have h := Registry.apply_same_key n l v rest
    simp only [Registry.apply, List.map_cons, List.foldl_cons] at h ⊢
    have hs : Registry.Set [] { name := n, labels := l, value := v }
        = [{ name := n, labels := l, value := v }] := by
      simp [Registry.Set]
    rw [hs, h, List.getLast?_eq_getLast _ (by simp)]

theorem cudoOrchBalanceTask_ok (config : Config) (b : GravityBackend)
    (labels : List (String × String)) (Balances : List Coin) (values : List F64)
    (hb : b.AllBalances = .ok Balances)
    (hv : List.Forall₂ (fun balance v => ToNativeBalance config balance.Amount = .ok v)
      Balances values) :
    cudoOrchBalanceTask config b labels = .ok (values.map fun v =>
      { name := "gravity_cudos_orchestrator_balance", labels := labels, value := v }) := by
  unfold cudoOrchBalanceTask
  rw [hb]
  simp only
  clear hb
  induction hv with
  | nil => rfl
  | cons h _ ih => simp only [cudoOrchBalanceLoop, h, ih, List.map_cons]

theorem ToNativeBalance_uatom : ToNativeBalance uatomConfig 5000000 = .ok (.fin 5) := by
  have hwf : (F64.fin 1000000).WF := by
    simpa using WF_natCast 1000000 (by norm_num) (by norm_num)
  have := ToNativeBalance_multiple uatomConfig 5000000 1000000 (by norm_num) (by norm_num)
    hwf rfl 5 (by norm_num) (by norm_num)
  simpa [F64.exact] using this

/-! ## general.go: token prices -/

theorem Registry.keys_Set (r : Registry) (w : Series) :
    (Registry.Set r w).map Series.key =
      if w.key ∈ r.map Series.key then r.map Series.key else r.map Series.key ++ [w.key] := by
  have hany : r.any (fun s => decide (s.name = w.name ∧ s.labels = w.labels)) = true ↔
      w.key ∈ r.map Series.key := by
    simp only [List.any_eq_true, decide_eq_true_eq, List.mem_map, Series.key, Prod.mk.injEq]
  unfold Registry.Set
  by_cases h : w.key ∈ r.map Series.key
  · rw [if_pos (hany.mpr h), if_pos h, List.map_map]
    apply List.map_congr_left
    intro s _
    simp only [Function.comp]
    split_ifs with hk
    · simp only [Series.key, Prod.mk.injEq]; exact ⟨hk.1.symm, hk.2.symm⟩
    · rfl
  · rw [if_neg (fun ha => h (hany.mp ha)), if_neg h, List.map_append]
    rfl

theorem Registry.mem_keys_apply (writes : List Series) (r : Registry)
    (k : String × List (String × String)) :
    k ∈ (Registry.apply r writes).map Series.key ↔
      k ∈ r.map Series.key ∨ k ∈ writes.map Series.key := by
  induction writes generalizing r with
  | nil => simp [Registry.apply]
  | cons w ws ih =>
    have h := ih (Registry.Set r w)
    simp only [Registry.apply, List.foldl_cons] at h ⊢
    rw [h, Registry.keys_Set]
    by_cases hk : w.key ∈ r.map Series.key
    · rw [if_pos hk]
      simp only [List.map_cons, List.mem_cons]
      constructor
      · rintro (h1 | h1)
        · exact Or.inl h1
        · exact Or.inr (Or.inr h1)
      · rintro (h1 | h1 | h1)
        · exact Or.inl h1
        · exact Or.inl (h1 ▸ hk)
        · exact Or.inr h1
    · rw [if_neg hk]
      simp only [List.map_cons, List.mem_cons, List.mem_append, List.mem_singleton]
      tauto

theorem Registry.apply_of_nodup (writes : List Series) (r : Registry)
    (h : ((r ++ writes).map Series.key).Nodup) : Registry.apply r writes = r ++ writes := by
  induction writes generalizing r with
  | nil => simp [Registry.apply]
  | cons w ws ih =>
    have hw : w.key ∉ r.map Series.key := by
      rw [List.map_append, List.map_cons] at h
      have := (List.nodup_append.mp h).2.2
      intro hk
      exact this hk (List.mem_cons_self _ _)
    have hset : Registry.Set r w = r ++ [w] := by
      unfold Registry.Set
      rw [if_neg]
      intro ha
      apply hw
      simp only [List.any_eq_true, decide_eq_true_eq] at ha
      obtain ⟨s, hs, h1, h2⟩ := ha
      exact List.mem_map.mpr ⟨s, hs, by simp [Series.key, h1, h2]⟩
    have h' : (((r ++ [w]) ++ ws).map Series.key).Nodup := by
      simpa [List.append_assoc] using h
    have := ih (r ++ [w]) h'
    simp only [Registry.apply, List.foldl_cons] at this ⊢
    rw [hset, this, List.append_assoc]
    rfl

theorem tokenPriceLoop_prefix (coinGecko : ℕ → String → PriceReply) (pre post : List String)
    (prices : List (F64 × F64)) (i : ℕ) (hok : lookupsOk coinGecko i pre prices)
    (hfail : ∀ t rest, post = t :: rest → (coinGecko (i + pre.length) t).failed = true) :
    tokenPriceLoop coinGecko i (pre ++ post) = priceWrites pre prices := by
  induction pre generalizing prices i with
  | nil =>
    cases prices with
    | cons p ps => simp [lookupsOk] at hok
    | nil =>
      cases post with
      | nil => rfl
      | cons t rest =>
        have h := hfail t rest rfl
        simp only [List.length_nil, Nat.add_zero] at h
        simp only [List.nil_append, tokenPriceLoop, priceWrites]
        cases hr : coinGecko i t with
        | ok usd gbp => rw [hr] at h; simp [PriceReply.failed] at h
        | getFailed e => rfl
        | readFailed e => rfl
        | decodeFailed e => rfl
  | cons token tokens ih =>
    cases prices with
    | nil => simp [lookupsOk] at hok
    | cons p ps =>
      obtain ⟨h1, h2⟩ := hok
      have := ih ps (i + 1) h2 (by
        intro t rest hp
        have := hfail t rest hp
        simpa [Nat.add_assoc, Nat.add_comm 1] using this)
      simp only [List.cons_append, tokenPriceLoop, h1, priceWrites]
      rw [← this]
      rfl

theorem stakingPoolTask_name (b : GeneralBackend) :
    ∀ s ∈ stakingPoolTask b, s.name = "cosmos_general_bonded_tokens" ∨
      s.name = "cosmos_general_not_bonded_tokens" := by
  intro s hs
  unfold stakingPoolTask at hs
  split at hs
  · simp at hs
  · simp only [List.mem_cons, List.mem_singleton, List.not_mem_nil, or_false] at hs
    rcases hs with rfl | rfl
    · exact Or.inl rfl
    · exact Or.inr rfl

theorem communityPoolTask_key (config : Config) (b : GeneralBackend) :
    ∀ s ∈ communityPoolTask config b,
      s.key = ("cosmos_general_community_pool", [("denom", config.Denom)]) := by
  intro s hs
  unfold communityPoolTask at hs
  split at hs
  · simp at hs
  · rw [List.mem_filterMap] at hs
    obtain ⟨coin, -, h⟩ := hs
    split at h
    · simp at h
    · simp only [Option.some.injEq] at h; rw [← h]; rfl

theorem GeneralHandler_price_series (config : Config) (b : GeneralBackend) :
    (GeneralHandler config b).filter (fun s => decide (s.name = "cosmos_token_price"))
      = Registry.apply [] (tokenPriceTask config b) := by
  have h1 : (stakingPoolTask b).filter (fun s => decide (s.name = "cosmos_token_price")) = [] := by
    rw [List.filter_eq_nil_iff]
    intro s hs
    rcases stakingPoolTask_name b s hs with h | h <;> simp [h]
  have h2 : (communityPoolTask config b).filter
      (fun s => decide (s.name = "cosmos_token_price")) = [] := by
    apply filter_eq_nil_of_name _ "cosmos_general_community_pool" _ (by decide)
    intro s hs
    have := communityPoolTask_key config b s hs
    simp only [Series.key, Prod.mk.injEq] at this
    exact this.1
  have h3 : (totalSupplyTask b).filter (fun s => decide (s.name = "cosmos_token_price")) = [] :=
    filter_eq_nil_of_name _ "cosmos_general_supply_total" _ (by decide) (totalSupplyTask_name b)
  have h4 : (tokenPriceTask config b).filter (fun s => decide (s.name = "cosmos_token_price"))
      = tokenPriceTask config b :=
    filter_eq_self_of_name _ _ (tokenPriceLoop_name b.coinGecko config.TokenPrices 0)
  unfold GeneralHandler
  rw [Registry.filter_apply]
  simp only [List.filter_append, h1, h2, h3, h4, List.nil_append]
  rfl

theorem mem_priceWrites (tokens : List String) (prices : List (F64 × F64)) (s : Series)
    (hs : s ∈ priceWrites tokens prices) :
    ∃ t ∈ tokens, ∃ c ∈ ["usd", "gbp"],
      s.key = ("cosmos_token_price", [("token", t), ("currency", c)]) := by
  induction tokens generalizing prices with
  | nil => simp [priceWrites] at hs
  | cons token rest ih =>
    cases prices with
    | nil => simp [priceWrites] at hs
    | cons p ps =>
      simp only [priceWrites, List.mem_cons] at hs
      rcases hs with rfl | rfl | hs
      · exact ⟨token, List.mem_cons_self _ _, "usd", by simp, rfl⟩
      · exact ⟨token, List.mem_cons_self _ _, "gbp", by simp, rfl⟩
      · obtain ⟨t, ht, c, hc, hk⟩ := ih ps hs
        exact ⟨t, List.mem_cons_of_mem _ ht, c, hc, hk⟩

theorem priceWrites_keys (tokens : List String) (prices : List (F64 × F64))
    (hlen : tokens.length = prices.length) (t : String) (ht : t ∈ tokens) (c : String)
    (hc : c ∈ ["usd", "gbp"]) :
    ("cosmos_token_price", [("token", t), ("currency", c)])
      ∈ (priceWrites tokens prices).map Series.key := by
  induction tokens generalizing prices with
  | nil => simp at ht
  | cons token rest ih =>
    cases prices with
    | nil => simp at hlen
    | cons p ps =>
      simp only [priceWrites, List.map_cons, List.mem_cons, Series.key]
      rcases List.mem_cons.mp ht with rfl | ht'
      · simp only [List.mem_cons, List.mem_singleton, List.not_mem_nil, or_false] at hc
        rcases hc with rfl | rfl
        · exact Or.inl rfl
        · exact Or.inr (Or.inl rfl)
      · exact Or.inr (Or.inr (ih ps (by simpa using hlen) ht'))

theorem lookupsOk_length (coinGecko : ℕ → String → PriceReply) (tokens : List String)
    (prices : List (F64 × F64)) (i : ℕ) (h : lookupsOk coinGecko i tokens prices) :
    tokens.length = prices.length := by
  induction tokens generalizing prices i with
  | nil => cases prices with
    | nil => rfl
    | cons p ps => simp [lookupsOk] at h
  | cons t ts ih => cases prices with
    | nil => simp [lookupsOk] at h
    | cons p ps => simp [ih ps (i + 1) h.2]

theorem priceWrites_nodup (tokens : List String) (prices : List (F64 × F64))
    (h : tokens.Nodup) : ((priceWrites tokens prices).map Series.key).Nodup := by
  induction tokens generalizing prices with
  | nil => simp [priceWrites]
  | cons token rest ih =>
    cases prices with
    | nil => simp [priceWrites]
    | cons p ps =>
      have hn := List.nodup_cons.mp h
      have hrest : ∀ c, ("cosmos_token_price", [("token", token), ("currency", c)])
          ∉ (priceWrites rest ps).map Series.key := by
        intro c hmem
        obtain ⟨s, hs, hk⟩ := List.mem_map.mp hmem
        obtain ⟨t, ht, c', -, hk'⟩ := mem_priceWrites rest ps s hs
        rw [hk'] at hk
        simp only [Prod.mk.injEq, List.cons.injEq, true_and, and_true] at hk
        exact hn.1 (hk.1 ▸ ht)
      simp only [priceWrites, List.map_cons, List.nodup_cons, List.mem_cons, Series.key]
      refine ⟨?_, hrest "gbp", ih ps hn.2⟩
      rintro (h1 | h1)
      · simp at h1
      · exact hrest "usd" h1

/-- C11 (as stated, refuted): the token list is `bitcoin, bitcoin`; the first lookup
succeeds and the second, for `t_2 = bitcoin`, fails. The registry holds the usd and gbp
series of `bitcoin`, so it is not true that `t_2` has no series. -/
theorem tokenPrice_first_failure_counterexample :
    repeatedTokenConfig.TokenPrices = ["bitcoin", "bitcoin"] ∧
    secondLookupFailsBackend.coinGecko 0 "bitcoin" = .ok (.fin 50000) (.fin 40000) ∧
    (secondLookupFailsBackend.coinGecko 1 "bitcoin").failed = true ∧
    (GeneralHandler repeatedTokenConfig secondLookupFailsBackend).filter
        (fun s => decide (s.name = "cosmos_token_price"))
      = [{ name := "cosmos_token_price",
           labels := [("token", "bitcoin"), ("currency", "usd")], value := .fin 50000 },
         { name := "cosmos_token_price",
           labels := [("token", "bitcoin"), ("currency", "gbp")], value := .fin 40000 }] := by
  refine ⟨rfl, rfl, rfl, ?_⟩
  rw [GeneralHandler_price_series]
  have h : tokenPriceTask repeatedTokenConfig secondLookupFailsBackend
      = priceWrites ["bitcoin"] [(.fin 50000, .fin 40000)] :=
    tokenPriceLoop_prefix secondLookupFailsBackend.coinGecko ["bitcoin"] ["bitcoin"]
      [(.fin 50000, .fin 40000)] 0 ⟨rfl, trivial⟩ (by
        intro t rest h
        simp [secondLookupFailsBackend, PriceReply.failed])
  rw [h, Registry.apply_of_nodup _ _ (by
    simpa using priceWrites_nodup ["bitcoin"] [(.fin 50000, .fin 40000)] (by simp))]
  rfl

/-- C11 (amended): price lookup stops at the first failure. Let the configured list be
`pre ++ post`, every lookup for `pre` succeeding with the decoded `prices`, and the lookup
for the first token of `post` (if any) failing. Then the task writes exactly the usd and
gbp gauges of the tokens of `pre`, in order, with the decoded values; the series of
`cosmos_token_price` in the rendered registry are the result of these writes (a later
write to a series replacing its value); the keys of the
`cosmos_token_price` series in the rendered registry are exactly the (token, currency)
pairs of `pre`; and when the token ids are pairwise distinct the series are exactly these
writes and no token of `post` has a series. A token of `post` that also occurs in `pre`
keeps the series written for it there. -/
theorem tokenPrice_first_failure (config : Config) (b : GeneralBackend)
    (pre post : List String) (prices : List (F64 × F64))
    (hcfg : config.TokenPrices = pre ++ post)
    (hok : lookupsOk b.coinGecko 0 pre prices)
    (hfail : ∀ t rest, post = t :: rest → (b.coinGecko pre.length t).failed = true) :
    tokenPriceTask config b = priceWrites pre prices ∧
    (GeneralHandler config b).filter (fun s => decide (s.name = "cosmos_token_price"))
      = Registry.apply [] (priceWrites pre prices) ∧
    (∀ k : String × List (String × String),
      (∃ s ∈ GeneralHandler config b, s.name = "cosmos_token_price" ∧ s.key = k) ↔
        ∃ t ∈ pre, ∃ c ∈ ["usd", "gbp"],
          k = ("cosmos_token_price", [("token", t), ("currency", c)])) ∧
    (config.TokenPrices.Nodup →
      (GeneralHandler config b).filter (fun s => decide (s.name = "cosmos_token_price"))
        = priceWrites pre prices ∧
      ∀ t ∈ post, ∀ s ∈ GeneralHandler config b, s.name = "cosmos_token_price" →
        ("token", t) ∉ s.labels) := by
  have htask : tokenPriceTask config b = priceWrites pre prices := by
    unfold tokenPriceTask
    rw [hcfg]
    exact tokenPriceLoop_prefix b.coinGecko pre post prices 0 hok (by simpa using hfail)
  have hlen := lookupsOk_length b.coinGecko pre prices 0 hok
  have hkeys : ∀ k : String × List (String × String),
      (∃ s ∈ GeneralHandler config b, s.name = "cosmos_token_price" ∧ s.key = k) ↔
        ∃ t ∈ pre, ∃ c ∈ ["usd", "gbp"],
          k = ("cosmos_token_price", [("token", t), ("currency", c)]) := by
    intro k
    have hmem : (∃ s ∈ GeneralHandler config b, s.name = "cosmos_token_price" ∧ s.key = k) ↔
        k ∈ ((GeneralHandler config b).filter
          (fun s => decide (s.name = "cosmos_token_price"))).map Series.key := by
      simp only [List.mem_map, List.mem_filter, decide_eq_true_eq]
      constructor
      · rintro ⟨s, hs, hn, hk⟩; exact ⟨s, ⟨hs, hn⟩, hk⟩
      · rintro ⟨s, ⟨hs, hn⟩, hk⟩; exact ⟨s, hs, hn, hk⟩
    rw [hmem, GeneralHandler_price_series, htask, Registry.mem_keys_apply]
    simp only [List.map_nil, List.not_mem_nil, false_or]
    constructor
    · intro hk
      obtain ⟨s, hs, rfl⟩ := List.mem_map.mp hk
      exact mem_priceWrites pre prices s hs
    · rintro ⟨t, ht, c, hc, rfl⟩
      exact priceWrites_keys pre prices hlen t ht c hc
  refine ⟨htask, by rw [GeneralHandler_price_series, htask], hkeys, fun hnd => ?_⟩
  rw [hcfg] at hnd
  have hpre : pre.Nodup := (List.nodup_append.mp hnd).1
  have hser : (GeneralHandler config b).filter
      (fun s => decide (s.name = "cosmos_token_price")) = priceWrites pre prices := by
    rw [GeneralHandler_price_series, htask,
      Registry.apply_of_nodup _ _ (by simpa using priceWrites_nodup pre prices hpre)]
    rfl
  refine ⟨hser, ?_⟩
  intro t ht s hs hn hlab
  have hs' : s ∈ priceWrites pre prices := by
    rw [← hser]; exact List.mem_filter.mpr ⟨hs, by simpa using hn⟩
  obtain ⟨t', ht', c, -, hk⟩ := mem_priceWrites pre prices s hs'
  simp only [Series.key, Prod.mk.injEq] at hk
  rw [hk.2] at hlab
  simp only [List.mem_cons, Prod.mk.injEq, List.mem_singleton, List.not_mem_nil,
    or_false] at hlab
  rcases hlab with h | h
  · exact (List.nodup_append.mp hnd).2.2 (h.2 ▸ ht') ht
  · exact absurd h.1 (by decide)

/-- Witness for C11 (amended): tokens `bitcoin, cudos`, the first lookup succeeding and
the second failing: the registry holds the two series of `bitcoin` and none of `cudos`. -/
theorem tokenPrice_first_failure_witness :
    twoTokenConfig.TokenPrices = ["bitcoin"] ++ ["cudos"] ∧
    lookupsOk secondLookupFailsBackend.coinGecko 0 ["bitcoin"] [(.fin 50000, .fin 40000)] ∧
    (secondLookupFailsBackend.coinGecko 1 "cudos").failed = true ∧
    (GeneralHandler twoTokenConfig secondLookupFailsBackend).filter
        (fun s => decide (s.name = "cosmos_token_price"))
      = [{ name := "cosmos_token_price",
           labels := [("token", "bitcoin"), ("currency", "usd")], value := .fin 50000 },
         { name := "cosmos_token_price",
           labels := [("token", "bitcoin"), ("currency", "gbp")], value := .fin 40000 }] ∧
    ∀ s ∈ GeneralHandler twoTokenConfig secondLookupFailsBackend,
      s.name = "cosmos_token_price" → ("token", "cudos") ∉ s.labels := by
  have h := (tokenPrice_first_failure twoTokenConfig secondLookupFailsBackend ["bitcoin"]
    ["cudos"] [(.fin 50000, .fin 40000)] rfl ⟨rfl, trivial⟩ (by
      intro t rest _
      simp [secondLookupFailsBackend, PriceReply.failed])).2.2.2 (by decide)
  exact ⟨rfl, ⟨rfl, trivial⟩, rfl, h.1, h.2 "cudos" (by simp)⟩

/-! ## Collisions of gauge writes -/

theorem GeneralHandler_eq_apply (config : Config) (b : GeneralBackend) :
    GeneralHandler config b = Registry.apply newGeneralMetrics (generalWrites config b) := rfl

theorem tokenPriceLoop_split (coinGecko : ℕ → String → PriceReply) (tokens : List String)
    (i : ℕ) :
    ∃ pre post prices, tokens = pre ++ post ∧ lookupsOk coinGecko i pre prices ∧
      (∀ t rest, post = t :: rest → (coinGecko (i + pre.length) t).failed = true) ∧
      tokenPriceLoop coinGecko i tokens = priceWrites pre prices := by
  induction tokens generalizing i with
  | nil => exact ⟨[], [], [], rfl, trivial, by simp, rfl⟩
  | cons token rest ih =>
    cases hr : coinGecko i token with
    | ok usd gbp =>
      obtain ⟨pre, post, prices, h1, h2, h3, h4⟩ := ih (i + 1)
      refine ⟨token :: pre, post, (usd, gbp) :: prices, by rw [h1]; rfl, ⟨hr, h2⟩, ?_, ?_⟩
      · intro t r hp
        have := h3 t r hp
        simpa [Nat.add_assoc, Nat.add_comm 1] using this
      · simp only [tokenPriceLoop, hr, h4, priceWrites]
    | getFailed e =>
      exact ⟨[], token :: rest, [], rfl, trivial,
        by intro t r hp; cases hp; simp [hr, PriceReply.failed],
        by simp [tokenPriceLoop, hr, priceWrites]⟩
    | readFailed e =>
      exact ⟨[], token :: rest, [], rfl, trivial,
        by intro t r hp; cases hp; simp [hr, PriceReply.failed],
        by simp [tokenPriceLoop, hr, priceWrites]⟩
    | decodeFailed e =>
      exact ⟨[], token :: rest, [], rfl, trivial,
        by intro t r hp; cases hp; simp [hr, PriceReply.failed],
        by simp [tokenPriceLoop, hr, priceWrites]⟩

theorem tokenPriceTask_nodup (config : Config) (b : GeneralBackend)
    (h : config.TokenPrices.Nodup) : ((tokenPriceTask config b).map Series.key).Nodup := by
  obtain ⟨pre, post, prices, h1, -, -, h4⟩ :=
    tokenPriceLoop_split b.coinGecko config.TokenPrices 0
  unfold tokenPriceTask
  rw [h4]
  rw [h1] at h
  exact priceWrites_nodup pre prices (List.nodup_append.mp h).1

theorem mem_totalSupplyTask (b : GeneralBackend) (Supply : List Coin)
    (hb : b.TotalSupply = .ok Supply) (s : Series) (hs : s ∈ totalSupplyTask b) :
    ∃ coin ∈ Supply, s.key = ("cosmos_general_supply_total", [("denom", coin.Denom)]) := by
  unfold totalSupplyTask at hs
  rw [hb] at hs
  simp only [List.mem_filterMap] at hs
  obtain ⟨coin, hc, h⟩ := hs
  split at h
  · simp at h
  · simp only [Option.some.injEq] at h
    exact ⟨coin, hc, by rw [← h]; rfl⟩

theorem totalSupplyTask_nodup (b : GeneralBackend)
    (h : ∀ Supply, b.TotalSupply = .ok Supply → (Supply.map Coin.Denom).Nodup) :
    ((totalSupplyTask b).map Series.key).Nodup := by
  cases hb : b.TotalSupply with
  | error e => simp [totalSupplyTask, hb]
  | ok Supply =>
    have hn := h Supply hb
    unfold totalSupplyTask
    rw [hb]
    simp only
    clear hb h
    induction Supply with
    | nil => simp
    | cons coin rest ih =>
      have hc : coin.Denom ∉ rest.map Coin.Denom ∧ (rest.map Coin.Denom).Nodup :=
        List.nodup_cons.mp hn
      have ih' := ih hc.2
      rw [List.filterMap_cons]
      split
      · exact ih'
      · rename_i w hw
        rw [List.map_cons, List.nodup_cons]
        refine ⟨?_, ih'⟩
        intro hmem
        obtain ⟨s, hs, hk⟩ := List.mem_map.mp hmem
        rw [List.mem_filterMap] at hs
        obtain ⟨coin', hc', hf⟩ := hs
        have hw' : w.key = ("cosmos_general_supply_total", [("denom", coin.Denom)]) := by
          split at hw
          · simp at hw
          · simp only [Option.some.injEq] at hw; rw [← hw]; rfl
        have hs' : s.key = ("cosmos_general_supply_total", [("denom", coin'.Denom)]) := by
          split at hf
          · simp at hf
          · simp only [Option.some.injEq] at hf; rw [← hf]; rfl
        rw [hw', hs'] at hk
        simp only [Prod.mk.injEq, List.cons.injEq, true_and, and_true] at hk
        exact hc.1 (List.mem_map.mpr ⟨coin', hc', hk⟩)

theorem stakingPoolTask_nodup (b : GeneralBackend) :
    ((stakingPoolTask b).map Series.key).Nodup := by
  unfold stakingPoolTask
  split
  · simp
  · simp [Series.key]

theorem otherGeneralWrites_nodup (config : Config) (b : GeneralBackend)
    (hs : ∀ Supply, b.TotalSupply = .ok Supply → (Supply.map Coin.Denom).Nodup)
    (ht : config.TokenPrices.Nodup) :
    ((stakingPoolTask b ++ totalSupplyTask b ++ tokenPriceTask config b).map Series.key).Nodup := by
  have name_of_key : ∀ (l : List Series) (k : String × List (String × String)),
      k ∈ l.map Series.key → ∃ s ∈ l, s.name = k.1 := by
    intro l k hk
    obtain ⟨s, hs, rfl⟩ := List.mem_map.mp hk
    exact ⟨s, hs, rfl⟩
  rw [List.map_append, List.map_append, List.nodup_append, List.nodup_append]
  refine ⟨⟨stakingPoolTask_nodup b, totalSupplyTask_nodup b hs, ?_⟩,
    tokenPriceTask_nodup config b ht, ?_⟩
  · intro k h1 h2
    obtain ⟨s1, hs1, e1⟩ := name_of_key _ k h1
    obtain ⟨s2, hs2, e2⟩ := name_of_key _ k h2
    have n2 := totalSupplyTask_name b s2 hs2
    rcases stakingPoolTask_name b s1 hs1 with n1 | n1 <;>
      · rw [e1] at n1; rw [e2, n1] at n2; exact absurd n2 (by decide)
  · intro k h1 h2
    obtain ⟨s2, hs2, e2⟩ := name_of_key _ k h2
    have n2 := tokenPriceLoop_name b.coinGecko config.TokenPrices 0 s2 hs2
    rw [e2] at n2
    rcases List.mem_append.mp h1 with h1 | h1
    · obtain ⟨s1, hs1, e1⟩ := name_of_key _ k h1
      rcases stakingPoolTask_name b s1 hs1 with n1 | n1 <;>
        · rw [e1, n2] at n1; exact absurd n1 (by decide)
    · obtain ⟨s1, hs1, e1⟩ := name_of_key _ k h1
      have n1 := totalSupplyTask_name b s1 hs1
      rw [e1, n2] at n1; exact absurd n1 (by decide)

theorem otherGeneralWrites_name (config : Config) (b : GeneralBackend) :
    ∀ w ∈ stakingPoolTask b ++ totalSupplyTask b ++ tokenPriceTask config b,
      w.name ≠ "cosmos_general_community_pool" := by
  intro w hw
  simp only [List.mem_append] at hw
  rcases hw with (h | h) | h
  · rcases stakingPoolTask_name b w h with n | n <;> rw [n] <;> decide
  · rw [totalSupplyTask_name b w h]; decide
  · rw [tokenPriceLoop_name b.coinGecko config.TokenPrices 0 w h]; decide

theorem cudoOrchBalanceLoop_key (config : Config) (labels : List (String × String))
    (Balances : List Coin) (ws : List Series)
    (h : cudoOrchBalanceLoop config labels Balances = .ok ws) :
    ∀ w ∈ ws, w.key = ("gravity_cudos_orchestrator_balance", labels) := by
  induction Balances generalizing ws with
  | nil =>
    simp only [cudoOrchBalanceLoop, Except.ok.injEq] at h
    subst h; simp
  | cons balance rest ih =>
    unfold cudoOrchBalanceLoop at h
    split at h
    · simp at h
    · split at h
      · simp at h
      · rename_i writes hw
        simp only [Except.ok.injEq] at h
        subst h
        intro w hmem
        rcases List.mem_cons.mp hmem with rfl | hmem
        · rfl
        · exact ih writes hw w hmem

theorem cudoOrchBalanceTask_key (config : Config) (b : GravityBackend)
    (labels : List (String × String)) (ws : List Series)
    (h : cudoOrchBalanceTask config b labels = .ok ws) :
    ∀ w ∈ ws, w.key = ("gravity_cudos_orchestrator_balance", labels) := by
  unfold cudoOrchBalanceTask at h
  split at h
  · simp only [Except.ok.injEq] at h; subst h; simp
  · exact cudoOrchBalanceLoop_key config labels _ ws h

theorem ethOrchBalanceTask_shape (config : Config) (b : GravityBackend)
    (labels : List (String × String)) (ws : List Series)
    (h : ethOrchBalanceTask config b labels = .ok ws) :
    ws = [] ∨ ∃ v, ws = [Series.mk "gravity_ethereum_orchestrator_balance" labels v] := by
  unfold ethOrchBalanceTask at h
  split at h
  · simp only [Except.ok.injEq] at h; exact Or.inl h.symm
  · rename_i ethBal _
    cases ht : ToNativeBalance config ethBal with
    | error e => simp [ht, bind, Except.bind] at h
    | ok v =>
      simp only [ht, bind, Except.bind, pure, Except.pure, Except.ok.injEq] at h
      exact Or.inr ⟨v, h.symm⟩

theorem ethERC20OrchBalanceTask_shape (config : Config) (b : GravityBackend)
    (labels : List (String × String)) (ws : List Series)
    (h : ethERC20OrchBalanceTask config b labels = .ok ws) :
    ws = [] ∨
      ∃ v, ws = [Series.mk "gravity_ethereum_orchestrator_erc20_balance" labels v] := by
  unfold ethERC20OrchBalanceTask at h
  split at h
  · simp only [Except.ok.injEq] at h; exact Or.inl h.symm
  · split at h
    · simp only [Except.ok.injEq] at h; exact Or.inl h.symm
    · rename_i ethBal _
      cases ht : ToNativeBalance config ethBal with
      | error e => simp [ht, bind, Except.bind] at h
      | ok v =>
        simp only [ht, bind, Except.bind, pure, Except.pure, Except.ok.injEq] at h
        exact Or.inr ⟨v, h.symm⟩

theorem ethContractBalanceTask_shape (config : Config) (b : GravityBackend)
    (ws : List Series) (h : ethContractBalanceTask config b = .ok ws) :
    ws = [] ∨ ∃ v, ws = [Series.mk "gravity_ethereum_contract_balance" [] v] := by
  unfold ethContractBalanceTask at h
  split at h
  · simp only [Except.ok.injEq] at h; exact Or.inl h.symm
  · rename_i ethBal _
    cases ht : ToNativeBalance config ethBal with
    | error e => simp [ht, bind, Except.bind] at h
    | ok v =>
      simp only [ht, bind, Except.bind, pure, Except.pure, Except.ok.injEq] at h
      exact Or.inr ⟨v, h.symm⟩

/-! ## network.go: the coefficient after `setDenom` -/

theorem ofSignMag_ge_one (m : ℚ) (hm : 1 ≤ m) :
    F64.ofSignMag false m = .inf false ∨ ∃ r, 1 ≤ r ∧ F64.ofSignMag false m = .fin r := by
  have h0 : 0 < m := lt_of_lt_of_le one_pos hm
  have he : 0 < binExp m := lt_binExp_of_le m 0 h0 (by simpa using hm)
  have hr : (1 : ℚ) ≤ roundPrec 53 m := by
    have h1 := le_roundPrec_of_le 53 m 1 (binExp m - 1) (by omega)
      (by simpa using binExp_le m h0)
    have h2 : (1 : ℚ) ≤ 2 ^ (binExp m - 1) := one_le_zpow₀ (by norm_num) (by omega)
    simpa using h2.trans (by simpa using h1)
  unfold F64.ofSignMag
  rw [if_neg h0.ne']
  simp only [BigFloat.Float64]
  rw [if_neg (by omega)]
  simp only [BigFloat.float64Round]
  split_ifs
  · exact Or.inl rfl
  · exact Or.inr ⟨roundPrec 53 m, hr, by simp [signed]⟩

theorem ofRat_ge_one (q : ℚ) (hq : 1 ≤ q) :
    F64.ofRat q = .inf false ∨ ∃ r, 1 ≤ r ∧ F64.ofRat q = .fin r := by
  have h0 : 0 < q := lt_of_lt_of_le one_pos hq
  have e : F64.ofRat q = F64.ofSignMag false q := by
    unfold F64.ofRat F64.ofSignMag
    simp [h0.ne', not_lt.mpr h0.le, abs_of_pos h0]
  rw [e]
  exact ofSignMag_ge_one q hq

theorem mul_ge_one (x y : F64)
    (hx : x = .inf false ∨ ∃ r, 1 ≤ r ∧ x = .fin r)
    (hy : y = .inf false ∨ ∃ r, 1 ≤ r ∧ y = .fin r) :
    F64.mul x y = .inf false ∨ ∃ r, 1 ≤ r ∧ F64.mul x y = .fin r := by
  rcases hx with rfl | ⟨a, ha, rfl⟩ <;> rcases hy with rfl | ⟨c, hc, rfl⟩
  · exact Or.inl rfl
  · have : ¬ c < 0 := not_lt.mpr (le_trans zero_le_one hc)
    exact Or.inl (by simp [F64.mul, F64.signbit, this])
  · have : ¬ a < 0 := not_lt.mpr (le_trans zero_le_one ha)
    exact Or.inl (by simp [F64.mul, F64.signbit, this])
  · have h1 : ¬ a < 0 := not_lt.mpr (le_trans zero_le_one ha)
    have h2 : ¬ c < 0 := not_lt.mpr (le_trans zero_le_one hc)
    have h3 : 1 ≤ a * c := by nlinarith
    have h4 : |a * c| = a * c := abs_of_pos (lt_of_lt_of_le one_pos h3)
    have e : F64.mul (.fin a) (.fin c) = F64.ofSignMag false (a * c) := by
      simp [F64.mul, F64.signbit, h1, h2, h4]
    rw [e]
    exact ofSignMag_ge_one _ h3

theorem Pow10_ge_one (n : ℕ) :
    Pow10 (n : ℤ) = .inf false ∨ ∃ r, 1 ≤ r ∧ Pow10 (n : ℤ) = .fin r := by
  by_cases h : n ≤ 308
  · unfold Pow10
    rw [if_pos ⟨by omega, by omega⟩]
    apply mul_ge_one
    · exact ofRat_ge_one _ (one_le_pow₀ (by norm_num))
    · exact ofRat_ge_one _ (one_le_pow₀ (by norm_num))
  · exact Or.inl (Pow10_overflow n (by omega))

theorem Pow10_nonzero_and_ge_one (n : ℕ) :
    (Pow10 (n : ℤ)).isNonZero = true ∧ F64.le (.fin 1) (Pow10 (n : ℤ)) = true := by
  rcases Pow10_ge_one n with h | ⟨r, hr, h⟩
  · rw [h]; exact ⟨rfl, rfl⟩
  · rw [h]
    have : r ≠ 0 := (lt_of_lt_of_le one_pos hr).ne'
    exact ⟨by simp [F64.isNonZero, this], by simp [F64.le, F64.value, hr]⟩

theorem setDenomUnits_coefficient (config : Config) (units : List DenomUnit) :
    ((setDenomUnits config units).1 = none →
      ∃ unit, units.find? (fun u => decide (u.Denom = config.Denom)) = some unit ∧
        (setDenomUnits config units).2
          = { config with DenomCoefficient := Pow10 (unit.Exponent : ℤ) }) ∧
    ((setDenomUnits config units).1 ≠ none → (setDenomUnits config units).2 = config) := by
  rw [setDenomUnits_eq]
  cases h : units.find? (fun u => decide (u.Denom = config.Denom)) with
  | none => simp
  | some unit => simp

theorem setDenom_query_path (config : Config) (metadata : Metadata) (rest : List Metadata)
    (h : ¬ (config.Denom ≠ "" ∧ config.DenomCoefficient.isNonZero = true)) :
    setDenom config (.ok (metadata :: rest)) =
      .ok { err := (setDenomUnits
                      (if config.Denom = "" then { config with Denom := metadata.Display }
                       else config) metadata.DenomUnits).1,
            config := (setDenomUnits
                      (if config.Denom = "" then { config with Denom := metadata.Display }
                       else config) metadata.DenomUnits).2,
            queried := true } := by
  unfold setDenom
  rw [if_neg h]
  simp

/-- C14 (as stated, refuted): with the denom `atom` configured, no coefficient, and a
first entry whose unit `atom` has exponent 400, `setDenom` returns nil on the query path
with the coefficient `+Inf` (`math.Pow10(400)`), which is non-zero but is not `10^400`. -/
theorem setDenom_coefficient_counterexample :
    setDenom { NewConfig with Denom := "atom" } (.ok [exponent400Metadata])
      = .ok { err := none,
              config := { NewConfig with Denom := "atom", DenomCoefficient := .inf false },
              queried := true } ∧
    F64.inf false ≠ F64.fin (10 ^ 400) := by
  refine ⟨?_, by simp⟩
  rw [setDenom_query_path _ exponent400Metadata [] (by simp [NewConfig, F64.isNonZero]),
    setDenomUnits_eq]
  have := Pow10_overflow 400 (by norm_num)
  simp only [Nat.cast_ofNat] at this
  simp [exponent400Metadata, NewConfig, List.find?, this]

/-- C14 (amended): for every initial configuration and every backend answer, `setDenom`
returns (it does not panic); if it returns nil, `config.DenomCoefficient` is non-zero
afterwards, and on the query path it is `math.Pow10(e)` for the exponent `e` of the first
unit of the first entry that is named as the resulting `config.Denom`, a `float64` that
is at least 1 (exactly `10^e` for `e ≤ 22`, `+Inf` for `e > 308`); if it returns an
error, `config.DenomCoefficient` is what it was before the call. -/
theorem setDenom_coefficient (config : Config) (answer : Except String (List Metadata)) :
    ∃ res, setDenom config answer = .ok res ∧
      (res.err = none →
        res.config.DenomCoefficient.isNonZero = true ∧
        (res.queried = true →
          F64.le (.fin 1) res.config.DenomCoefficient = true ∧
          ∃ metadata rest unit, answer = .ok (metadata :: rest) ∧
            metadata.DenomUnits.find? (fun u => decide (u.Denom = res.config.Denom))
              = some unit ∧
            res.config.DenomCoefficient = Pow10 (unit.Exponent : ℤ) ∧
            (unit.Exponent ≤ 22 → res.config.DenomCoefficient = .fin (10 ^ unit.Exponent)) ∧
            (308 < unit.Exponent → res.config.DenomCoefficient = .inf false))) ∧
      (res.err ≠ none → res.config.DenomCoefficient = config.DenomCoefficient) := by
  by_cases h : config.Denom ≠ "" ∧ config.DenomCoefficient.isNonZero = true
  · refine ⟨_, setDenom_override_eq config answer h, ?_, ?_⟩
    · intro _
      exact ⟨h.2, fun hq => by simp at hq⟩
    · intro he; simp at he
  · cases answer with
    | error e =>
      refine ⟨{ err := some e, config := config, queried := true }, ?_, ?_, ?_⟩
      · unfold setDenom; rw [if_neg h]
      · intro he; simp at he
      · intro _; rfl
    | ok Metadatas =>
      cases Metadatas with
      | nil =>
        refine ⟨_, setDenom_empty config ?_, ?_, ?_⟩
        · by_cases hd : config.Denom = ""
          · exact Or.inl hd
          · right
            cases hz : config.DenomCoefficient.isNonZero with
            | false => rfl
            | true => exact absurd ⟨hd, hz⟩ h
        · intro he; simp at he
        · intro _; rfl
      | cons metadata rest =>
        refine ⟨_, setDenom_query_path config metadata rest h, ?_, ?_⟩
        · intro he
          obtain ⟨unit, hu, hc⟩ := (setDenomUnits_coefficient _ metadata.DenomUnits).1 he
          simp only at hc ⊢
          rw [hc]
          have hp := Pow10_nonzero_and_ge_one unit.Exponent
          refine ⟨hp.1, fun _ => ⟨hp.2, metadata, rest, unit, rfl, ?_, rfl,
            Pow10_exact unit.Exponent, Pow10_overflow unit.Exponent⟩⟩
          exact hu
        · intro he
          have := (setDenomUnits_coefficient _ metadata.DenomUnits).2 he
          simp only at this ⊢
          rw [this]
          split_ifs <;> rfl

/-- Witness for C14 (amended): from `NewConfig()` and a first entry whose display unit has
exponent 6, `setDenom` returns nil and leaves a non-zero coefficient. -/
theorem setDenom_coefficient_witness :
    ∃ res, setDenom NewConfig (.ok [atomMetadata]) = .ok res ∧ res.err = none ∧
      res.config.DenomCoefficient.isNonZero = true := by
  obtain ⟨res, h, h1, -⟩ := setDenom_coefficient NewConfig (.ok [atomMetadata])
  have hs : setDenom NewConfig (.ok [atomMetadata])
      = .ok { err := none,
              config := { NewConfig with Denom := "atom",
                                         DenomCoefficient := Pow10 ((6 : ℕ) : ℤ) },
              queried := true } := by
    rw [setDenom_nonempty NewConfig atomMetadata [] rfl, setDenomUnits_eq]
    simp [atomMetadata, List.find?]
  have he : res.err = none := by
    rw [hs] at h
    simp only [Except.ok.injEq] at h
    rw [← h]
  exact ⟨res, h, he, (h1 he).1⟩

/-! ## The wait group -/

theorem Handling.Inv_init (p : FanOut) (hp : 0 < p.tasks) : Handling.Inv p Handling.init := by
  simp [Handling.Inv, Handling.init, hp]

theorem Handling.Inv_step (p : FanOut) (s s' : Handling) (m : Move)
    (hinv : Handling.Inv p s) (hstep : Handling.step p s m = some s') : Handling.Inv p s' := by
  obtain ⟨main, running, done, counter, rendered, crashed⟩ := s
  cases m with
  | main =>
    cases crashed with
    | true => simp [Handling.step] at hstep
    | false =>
    cases main with
    | dispatch k =>
      simp only [Handling.Inv] at hinv
      obtain ⟨h1, h2, h3, h4⟩ := hinv
      by_cases hret : p.returnsBefore = some k
      · simp only [Handling.step, Bool.false_eq_true, hret, if_true, if_false,
          Option.some.injEq] at hstep
        subst hstep
        simp only [Handling.Inv]
        exact h3
      · simp only [Handling.step, Bool.false_eq_true, hret, if_false, Option.some.injEq] at hstep
        subst hstep
        simp only [Handling.Inv, List.length_cons]
        exact ⟨by omega, h2, h3, h4⟩
    | add k =>
      simp only [Handling.Inv] at hinv
      simp only [Handling.step, Bool.false_eq_true, if_false, Option.some.injEq] at hstep
      subst hstep
      obtain ⟨h1, h2, h3, h4⟩ := hinv
      by_cases hk : k + 1 < p.tasks
      · simp only [Handling.Inv, if_pos hk]
        exact ⟨h1, by push_cast; omega, h3, hk⟩
      · simp only [Handling.Inv, if_neg hk]
        have : k + 1 = p.tasks := by omega
        exact ⟨by omega, by rw [← this]; push_cast; omega, h3⟩
    | wait =>
      simp only [Handling.Inv] at hinv
      obtain ⟨h1, h2, h3⟩ := hinv
      by_cases hc : counter = 0
      · simp only [Handling.step, Bool.false_eq_true, hc, if_true, if_false,
          Option.some.injEq] at hstep
        subst hstep
        have hd : done.length = p.tasks := by omega
        simp only [Handling.Inv]
        exact ⟨List.length_eq_zero.mp (by omega), hd, h3⟩
      · simp [Handling.step, hc] at hstep
    | render =>
      simp only [Handling.Inv] at hinv
      simp only [Handling.step, Bool.false_eq_true, if_false, Option.some.injEq] at hstep
      subst hstep
      simp only [Handling.Inv]
      exact ⟨hinv.1, hinv.2.1⟩
    | finished => simp [Handling.step] at hstep
    | returned => simp [Handling.step] at hstep
  | done k =>
    simp only [Handling.step] at hstep
    split_ifs at hstep with hc hk
    simp only [Option.some.injEq] at hstep
    subst hstep
    have hlen : (running.erase k).length + 1 = running.length := by
      rw [List.length_erase_of_mem hk]
      have : 0 < running.length := List.length_pos_of_mem hk
      omega
    cases main with
    | dispatch j =>
      simp only [Handling.Inv, List.length_cons] at hinv ⊢
      obtain ⟨h1, h2, h3, h4⟩ := hinv
      exact ⟨by omega, by push_cast; omega, h3, h4⟩
    | add j =>
      simp only [Handling.Inv, List.length_cons] at hinv ⊢
      obtain ⟨h1, h2, h3, h4⟩ := hinv
      exact ⟨by omega, by push_cast; omega, h3, h4⟩
    | wait =>
      simp only [Handling.Inv, List.length_cons] at hinv ⊢
      obtain ⟨h1, h2, h3⟩ := hinv
      exact ⟨by omega, by push_cast; omega, h3⟩
    | render =>
      simp only [Handling.Inv] at hinv
      rw [hinv.1] at hk
      simp at hk
    | finished =>
      simp only [Handling.Inv] at hinv
      rw [hinv.1] at hk
      simp at hk
    | returned =>
      simp only [Handling.Inv] at hinv ⊢
      exact hinv

theorem Handling.Inv_run (p : FanOut) (moves : List Move) (s s' : Handling)
    (hinv : Handling.Inv p s) (hrun : Handling.run p s moves = some s') :
    Handling.Inv p s' := by
  induction moves generalizing s with
  | nil =>
    simp only [Handling.run, Option.some.injEq] at hrun
    subst hrun
    exact hinv
  | cons m ms ih =>
    simp only [Handling.run] at hrun
    cases hs : Handling.step p s m with
    | none => simp [hs] at hrun
    | some s1 =>
      simp only [hs] at hrun
      exact ih s1 (Handling.Inv_step p s s1 m hinv hs) hrun

theorem Handling.rendered_after_all (p : FanOut) (hp : 0 < p.tasks) (moves : List Move)
    (s : Handling) (hrun : Handling.run p Handling.init moves = some s)
    (hr : s.rendered = true) : s.running = [] ∧ s.done.length = p.tasks := by
  have hinv := Handling.Inv_run p moves _ s (Handling.Inv_init p hp) hrun
  obtain ⟨main, running, done, counter, rendered, crashed⟩ := s
  simp only at hr
  subst hr
  cases main <;> simp [Handling.Inv] at hinv ⊢
  exact hinv

/-- C13 (the code does not do what the claim says): both handlers call `wg.Add(1)` after
the `go` statement of the task. In the schedule where the first task is started and runs
to its end before the handler executes the `wg.Add(1)` that follows, `wg.Done()` takes the
counter from 0 to -1, which panics and crashes the process. The barrier half of the claim
does hold: in every execution, once the registry is rendered no task is still running and
all four have ended. -/
theorem WaitGroup_counter_negative :
    Handling.run generalFanOut Handling.init [.main, .done 0]
      = some { main := .add 0, running := [], done := [0], counter := -1, rendered := false,
               crashed := true } ∧
    (∀ NewMainFails, Handling.run (gravityFanOut NewMainFails) Handling.init [.main, .done 0]
      = some { main := .add 0, running := [], done := [0], counter := -1, rendered := false,
               crashed := true }) ∧
    (∀ moves s, Handling.run generalFanOut Handling.init moves = some s → s.rendered = true →
      s.running = [] ∧ s.done.length = 4) ∧
    (∀ NewMainFails moves s,
      Handling.run (gravityFanOut NewMainFails) Handling.init moves = some s →
      s.rendered = true → s.running = [] ∧ s.done.length = 4) := by
  refine ⟨by decide, ?_, ?_, ?_⟩
  · intro f
    cases f <;> decide
  · intro moves s h hr
    exact Handling.rendered_after_all generalFanOut (by decide) moves s h hr
  · intro f moves s h hr
    exact Handling.rendered_after_all (gravityFanOut f) (by cases f <;> decide) moves s h hr

/-! ## gravity-bridge.go: failure of the external chain -/

theorem GravityBridgeHandler_queries_failed (config : Config) (b : GravityBackend)
    (r : GravityRequest) (cudos : String) (e1 e2 e3 : String)
    (haddr : b.AccAddressFromBech32 r.cudos_orchestrator_address = .ok cudos)
    (hd : b.Dial = none) (hn : b.NewMain = none) (h1 : b.BalanceAt = .error e1)
    (h2 : b.BalanceOfOrchestrator = .error e2) (h3 : b.BalanceOfGravity = .error e3) :
    GravityBridgeHandler config b r =
      match cudoOrchBalanceTask config b
          [("cudos_orchestrator_address", cudos),
            ("ethereum_orchestrator_address",
              b.HexToAddress r.ethereum_orchestrator_address)] with
      | .error msg => .crashed msg
      | .ok writes => .rendered (Registry.apply [] writes) := by
  unfold GravityBridgeHandler
  simp only [haddr, hd, hn, ethOrchBalanceTask, h1, ethERC20OrchBalanceTask, h2,
    ethContractBalanceTask, h3]
  cases cudoOrchBalanceTask config b
      [("cudos_orchestrator_address", cudos),
        ("ethereum_orchestrator_address",
          b.HexToAddress r.ethereum_orchestrator_address)] with
  | error msg => rfl
  | ok writes => simp [bind, Except.bind, pure, Except.pure]

theorem ParseFloat_dec (n : ℤ) (h : |n| < 2 ^ 256 * 10 ^ 18) :
    ParseFloat ((n : ℚ) / 10 ^ 18) = (F64.ofRat ((n : ℚ) / 10 ^ 18), none) := by
  rcases eq_or_ne n 0 with rfl | hn
  · simp [ParseFloat, F64.ofRat]
  · have hq : (n : ℚ) / 10 ^ 18 ≠ 0 := by
      have : (n : ℚ) ≠ 0 := by exact_mod_cast hn
      exact div_ne_zero this (by norm_num)
    have h1 : (1 : ℚ) ≤ |(n : ℚ)| := by
      have : (1 : ℤ) ≤ |n| := Int.one_le_abs hn
      exact_mod_cast this
    have habs : |(n : ℚ) / 10 ^ 18| = |(n : ℚ)| / 10 ^ 18 := by
      rw [abs_div, abs_of_pos (by positivity : (0 : ℚ) < 10 ^ 18)]
    have hlow : (2 : ℚ) ^ (-1022 : ℤ) ≤ |(n : ℚ) / 10 ^ 18| := by
      have a : (2 : ℚ) ^ (-1022 : ℤ) ≤ 2 ^ (-60 : ℤ) :=
        zpow_le_zpow_right₀ (by norm_num) (by norm_num)
      have b : (2 : ℚ) ^ (-60 : ℤ) ≤ 1 / 10 ^ 18 := by norm_num
      have c : (1 : ℚ) / 10 ^ 18 ≤ |(n : ℚ)| / 10 ^ 18 :=
        div_le_div_of_nonneg_right h1 (by positivity)
      rw [habs]
      exact a.trans (b.trans c)
    have hhigh : |(n : ℚ) / 10 ^ 18| ≤ maxFloat64 := by
      have a : |(n : ℚ)| < 2 ^ 256 * 10 ^ 18 := by exact_mod_cast h
      have b : |(n : ℚ)| / 10 ^ 18 < 2 ^ 256 := by
        rw [div_lt_iff₀ (by norm_num)]
        exact a
      have c : (2 : ℚ) ^ 256 ≤ maxFloat64 := by norm_num [maxFloat64]
      rw [habs]
      exact b.le.trans c
    have e : F64.ofRat ((n : ℚ) / 10 ^ 18) = .fin (signed (decide ((n : ℚ) / 10 ^ 18 < 0))
        (roundPrec 53 |(n : ℚ) / 10 ^ 18|)) := by
      unfold F64.ofRat
      rw [if_neg hq]
      exact Float64_normal _ rfl hlow hhigh
    simp only [ParseFloat, e]

theorem communityPoolTask_eq (config : Config) (b : GeneralBackend) (Pool : List DecCoin)
    (hb : b.CommunityPool = .ok Pool) (hrange : ∀ coin ∈ Pool, |coin.Amount| < 2 ^ 256 * 10 ^ 18) :
    communityPoolTask config b = Pool.map fun coin =>
      Series.mk "cosmos_general_community_pool" [("denom", config.Denom)]
        (F64.div (F64.ofRat ((coin.Amount : ℚ) / 10 ^ 18)) config.DenomCoefficient) := by
  unfold communityPoolTask
  rw [hb]
  simp only
  clear hb
  induction Pool with
  | nil => rfl
  | cons coin rest ih =>
    have h1 := ParseFloat_dec coin.Amount (hrange coin (List.mem_cons_self _ _))
    have h2 := ih (fun c hc => hrange c (List.mem_cons_of_mem _ hc))
    simp only [List.filterMap_cons, h1, List.map_cons, h2]

theorem GeneralHandler_pool_series (config : Config) (b : GeneralBackend) :
    (GeneralHandler config b).filter
        (fun s => decide (s.name = "cosmos_general_community_pool"))
      = Registry.apply [] (communityPoolTask config b) := by
  have h1 : (stakingPoolTask b).filter
      (fun s => decide (s.name = "cosmos_general_community_pool")) = [] := by
    rw [List.filter_eq_nil_iff]
    intro s hs
    rcases stakingPoolTask_name b s hs with h | h <;> simp [h]
  have h2 : (communityPoolTask config b).filter
      (fun s => decide (s.name = "cosmos_general_community_pool"))
      = communityPoolTask config b := by
    apply filter_eq_self_of_name
    intro s hs
    have := communityPoolTask_key config b s hs
    simp only [Series.key, Prod.mk.injEq] at this
    exact this.1
  have h3 : (totalSupplyTask b).filter
      (fun s => decide (s.name = "cosmos_general_community_pool")) = [] :=
    filter_eq_nil_of_name _ "cosmos_general_supply_total" _ (by decide) (totalSupplyTask_name b)
  have h4 : (tokenPriceTask config b).filter
      (fun s => decide (s.name = "cosmos_general_community_pool")) = [] :=
    filter_eq_nil_of_name _ "cosmos_token_price" _ (by decide)
      (tokenPriceLoop_name b.coinGecko config.TokenPrices 0)
  unfold GeneralHandler
  rw [Registry.filter_apply]
  simp only [List.filter_append, h1, h2, h3, h4, List.nil_append, List.append_nil]
  rfl

theorem Registry.apply_nil_same_key_map {α : Type} (n : String) (l : List (String × String))
    (f : α → F64) (xs : List α) :
    Registry.apply [] (xs.map fun x => Series.mk n l (f x))
      = match xs.getLast? with
        | none => []
        | some x => [Series.mk n l (f x)] := by
  have h := Registry.apply_nil_same_key n l (xs.map f)
  rw [List.map_map] at h
  have e : ((fun v => ({ name := n, labels := l, value := v } : Series)) ∘ f)
      = fun x => Series.mk n l (f x) := rfl
  rw [e] at h
  rw [h]
  cases hx : xs.getLast? with
  | none =>
    have : xs = [] := List.getLast?_eq_none_iff.mp hx
    subst this
    rfl
  | some x =>
    have : (xs.map f).getLast? = some (f x) := by
      rw [List.getLast?_map, hx]; rfl
    rw [this]

theorem stakingPoolTask_eq (b : GeneralBackend) (BondedTokens NotBondedTokens : ℤ)
    (hb : b.Pool = .ok (BondedTokens, NotBondedTokens)) :
    stakingPoolTask b =
      [Series.mk "cosmos_general_bonded_tokens" [] (BigIntToFloat BondedTokens),
       Series.mk "cosmos_general_not_bonded_tokens" [] (BigIntToFloat NotBondedTokens)] := by
  unfold stakingPoolTask
  rw [hb]

theorem GeneralHandler_supply_kept (config : Config) (b : GeneralBackend)
    (hs : ∀ Supply, b.TotalSupply = .ok Supply → (Supply.map Coin.Denom).Nodup) :
    (GeneralHandler config b).filter (fun s => decide (s.name = "cosmos_general_supply_total"))
      = totalSupplyTask b := by
  rw [GeneralHandler_supply_series,
    Registry.apply_of_nodup _ _ (by simpa using totalSupplyTask_nodup b hs)]
  rfl

theorem GeneralHandler_price_kept (config : Config) (b : GeneralBackend)
    (ht : config.TokenPrices.Nodup) :
    (GeneralHandler config b).filter (fun s => decide (s.name = "cosmos_token_price"))
      = tokenPriceTask config b := by
  rw [GeneralHandler_price_series,
    Registry.apply_of_nodup _ _ (by simpa using tokenPriceTask_nodup config b ht)]
  rfl

theorem div_million (n : ℕ) (h0 : 0 < n) (h : n ≤ 1000) (a : ℤ)
    (ha : (a : ℚ) / 10 ^ 18 = ((n * 1000000 : ℕ) : ℚ)) :
    F64.div (F64.ofRat ((a : ℚ) / 10 ^ 18)) (.fin 1000000) = .fin n := by
  have hn : (0 : ℚ) < n := by exact_mod_cast h0
  have hle : (n : ℚ) ≤ 1000 := by exact_mod_cast h
  have hlt : n < 2 ^ 53 := lt_of_le_of_lt h (by norm_num)
  rw [ha, ofRat_natCast (n * 1000000) (by positivity)
    (le_trans (Nat.mul_le_mul_right _ h) (by norm_num))]
  have hq : ((n * 1000000 : ℕ) : ℚ) / 1000000 = (n : ℚ) * 2 ^ (0 : ℤ) := by
    push_cast
    field_simp
  have hpos : ¬ ((n * 1000000 : ℕ) : ℚ) < 0 := not_lt.mpr (by positivity)
  have h3 : (2 : ℚ) ^ (-1022 : ℤ) ≤ 1 := by
    rw [zpow_neg]
    apply inv_le_one_of_one_le₀
    exact one_le_zpow₀ (by norm_num) (by norm_num)
  have h1 : (1 : ℚ) ≤ n := by exact_mod_cast h0
  have hmax : (1000 : ℚ) ≤ maxFloat64 := by norm_num [maxFloat64]
  have hg := ofSignMag_grid false n 0 h0 hlt
    (by simp only [zpow_zero, mul_one]; exact h3.trans h1)
    (by simp only [zpow_zero, mul_one]; exact hle.trans hmax)
  simp only [F64.div, F64.signbit, hpos, decide_False]
  have hs : (decide ((1000000 : ℚ) < 0)) = false := by norm_num
  rw [hs, hq, abs_of_pos (by positivity)]
  simpa [signed] using hg

theorem ToNativeBalance_uatom_seven :
    ToNativeBalance uatomConfig 7000000 = .ok (.fin 7) := by
  have hwf : (F64.fin 1000000).WF := by
    simpa using WF_natCast 1000000 (by norm_num) (by norm_num)
  have := ToNativeBalance_multiple uatomConfig 7000000 1000000 (by norm_num) (by norm_num)
    hwf rfl 7 (by norm_num) (by norm_num)
  simpa [F64.exact] using this

theorem GeneralHandler_staking_series (config : Config) (b : GeneralBackend)
    (BondedTokens NotBondedTokens : ℤ) (hb : b.Pool = .ok (BondedTokens, NotBondedTokens)) :
    (GeneralHandler config b).filter
        (fun s => decide (s.name = "cosmos_general_bonded_tokens")) =
      [Series.mk "cosmos_general_bonded_tokens" [] (BigIntToFloat BondedTokens)] ∧
    (GeneralHandler config b).filter
        (fun s => decide (s.name = "cosmos_general_not_bonded_tokens")) =
      [Series.mk "cosmos_general_not_bonded_tokens" [] (BigIntToFloat NotBondedTokens)] := by
  have hpool : ∀ s ∈ communityPoolTask config b, s.name = "cosmos_general_community_pool" := by
    intro s hs
    have := communityPoolTask_key config b s hs
    simp only [Series.key, Prod.mk.injEq] at this
    exact this.1
  have key : ∀ n : String, n ≠ "cosmos_general_community_pool" →
      n ≠ "cosmos_general_supply_total" → n ≠ "cosmos_token_price" →
      (GeneralHandler config b).filter (fun s => decide (s.name = n)) =
        Registry.apply (newGeneralMetrics.filter (fun s => decide (s.name = n)))
          ((stakingPoolTask b).filter (fun s => decide (s.name = n))) := by
    intro n h1 h2 h3
    unfold GeneralHandler
    rw [Registry.filter_apply]
    simp only [List.filter_append,
      filter_eq_nil_of_name _ "cosmos_general_community_pool" n (Ne.symm h1) hpool,
      filter_eq_nil_of_name _ "cosmos_general_supply_total" n (Ne.symm h2)
        (totalSupplyTask_name b),
      filter_eq_nil_of_name _ "cosmos_token_price" n (Ne.symm h3)
        (show ∀ s ∈ tokenPriceTask config b, s.name = "cosmos_token_price" from
          tokenPriceLoop_name b.coinGecko config.TokenPrices 0),
      List.append_nil]
  constructor
  · rw [key _ (by decide) (by decide) (by decide), stakingPoolTask_eq b _ _ hb]
    simp [newGeneralMetrics, Registry.apply, Registry.Set, List.filter]
  · rw [key _ (by decide) (by decide) (by decide), stakingPoolTask_eq b _ _ hb]
    simp [newGeneralMetrics, Registry.apply, Registry.Set, List.filter]

theorem GravityBridgeHandler_all_ran (config : Config) (b : GravityBackend)
    (r : GravityRequest) (cudos : String) (w1 w2 w3 w4 : List Series)
    (haddr : b.AccAddressFromBech32 r.cudos_orchestrator_address = .ok cudos)
    (hd : b.Dial = none) (hn : b.NewMain = none)
    (h1 : cudoOrchBalanceTask config b
      [("cudos_orchestrator_address", cudos),
       ("ethereum_orchestrator_address", b.HexToAddress r.ethereum_orchestrator_address)]
      = .ok w1)
    (h2 : ethOrchBalanceTask config b
      [("cudos_orchestrator_address", cudos),
       ("ethereum_orchestrator_address", b.HexToAddress r.ethereum_orchestrator_address)]
      = .ok w2)
    (h3 : ethERC20OrchBalanceTask config b
      [("cudos_orchestrator_address", cudos),
       ("ethereum_orchestrator_address", b.HexToAddress r.ethereum_orchestrator_address)]
      = .ok w3)
    (h4 : ethContractBalanceTask config b = .ok w4) :
    GravityBridgeHandler config b r = .rendered (Registry.apply [] (w1 ++ w2 ++ w3 ++ w4)) := by
  unfold GravityBridgeHandler
  simp only [haddr, hd, hn, h1, h2, h3, h4]
  rfl

theorem cudoOrchBalance_series (labels : List (String × String)) (values : List F64)
    (w2 w3 w4 : List Series)
    (s2 : w2 = [] ∨ ∃ v, w2 = [Series.mk "gravity_ethereum_orchestrator_balance" labels v])
    (s3 : w3 = [] ∨
      ∃ v, w3 = [Series.mk "gravity_ethereum_orchestrator_erc20_balance" labels v])
    (s4 : w4 = [] ∨ ∃ v, w4 = [Series.mk "gravity_ethereum_contract_balance" [] v]) :
    (Registry.apply []
        ((values.map fun v => Series.mk "gravity_cudos_orchestrator_balance" labels v)
          ++ w2 ++ w3 ++ w4)).filter
        (fun s => decide (s.name = "gravity_cudos_orchestrator_balance")) =
      match values.getLast? with
      | none => []
      | some v => [Series.mk "gravity_cudos_orchestrator_balance" labels v] := by
  have f1 : (values.map fun v => Series.mk "gravity_cudos_orchestrator_balance" labels v).filter
      (fun s => decide (s.name = "gravity_cudos_orchestrator_balance"))
      = values.map fun v => Series.mk "gravity_cudos_orchestrator_balance" labels v := by
    apply filter_eq_self_of_name
    intro s hs
    obtain ⟨v, -, rfl⟩ := List.mem_map.mp hs
    rfl
  have f2 : w2.filter (fun s => decide (s.name = "gravity_cudos_orchestrator_balance")) = [] := by
    rcases s2 with rfl | ⟨v, rfl⟩ <;> simp [List.filter]
  have f3 : w3.filter (fun s => decide (s.name = "gravity_cudos_orchestrator_balance")) = [] := by
    rcases s3 with rfl | ⟨v, rfl⟩ <;> simp [List.filter]
  have f4 : w4.filter (fun s => decide (s.name = "gravity_cudos_orchestrator_balance")) = [] := by
    rcases s4 with rfl | ⟨v, rfl⟩ <;> simp [List.filter]
  rw [Registry.filter_apply]
  simp only [List.filter_append, f1, f2, f3, f4, List.append_nil, List.filter_nil]
  exact Registry.apply_nil_same_key "gravity_cudos_orchestrator_balance" labels values

theorem communityPoolTask_twoCoins (config : Config) (b : GeneralBackend)
    (hc : config.DenomCoefficient = .fin 1000000) (hd : config.Denom = "uatom")
    (hb : b.CommunityPool = .ok [{ Denom := "acudos", Amount := 5000000000000000000000000 },
      { Denom := "uatom", Amount := 7000000000000000000000000 }]) :
    communityPoolTask config b =
      [Series.mk "cosmos_general_community_pool" [("denom", "uatom")] (.fin 5),
       Series.mk "cosmos_general_community_pool" [("denom", "uatom")] (.fin 7)] := by
  have h5 := div_million 5 (by norm_num) (by norm_num) 5000000000000000000000000
    (by norm_num)
  have h7 := div_million 7 (by norm_num) (by norm_num) 7000000000000000000000000
    (by norm_num)
  rw [communityPoolTask_eq config b _ hb (by
    intro coin hcoin
    simp only [List.mem_cons, List.mem_singleton, List.not_mem_nil, or_false] at hcoin
    rcases hcoin with rfl | rfl <;> norm_num)]
  simp only [List.map_cons, List.map_nil, hc, hd, h5, h7]
  norm_num

theorem gravityWrites_twoBalances (labels : List (String × String)) :
    cudoOrchBalanceTask uatomConfig twoBalanceBackend labels =
      .ok [Series.mk "gravity_cudos_orchestrator_balance" labels (.fin 5),
           Series.mk "gravity_cudos_orchestrator_balance" labels (.fin 7)] :=
  cudoOrchBalanceTask_ok uatomConfig twoBalanceBackend labels
    [{ Denom := "acudos", Amount := 5000000 }, { Denom := "stake", Amount := 7000000 }]
    [.fin 5, .fin 7] rfl
    (List.Forall₂.cons ToNativeBalance_uatom
      (List.Forall₂.cons ToNativeBalance_uatom_seven List.Forall₂.nil))

/-- C12 (as stated, refuted): a community pool of two coins (5000000 `acudos`, 7000000
`uatom`, in whole units) makes `GeneralHandler` write first 5 and then 7 to the one series
`cosmos_general_community_pool{denom="uatom"}` (the configured denom), and the rendered
registry holds only the 7. An orchestrator wallet with two balances makes
`GravityBridgeHandler`, called with a valid address, write first 5 and then 7 to the one
series of the address pair, and the rendered registry holds only the 7. -/
theorem gauge_writes_collide_counterexample :
    generalWrites uatomConfig twoCoinPoolBackend =
      [Series.mk "cosmos_general_community_pool" [("denom", "uatom")] (.fin 5),
       Series.mk "cosmos_general_community_pool" [("denom", "uatom")] (.fin 7)] ∧
    GeneralHandler uatomConfig twoCoinPoolBackend =
      [Series.mk "cosmos_general_bonded_tokens" [] (.zero false),
       Series.mk "cosmos_general_not_bonded_tokens" [] (.zero false),
       Series.mk "cosmos_general_community_pool" [("denom", "uatom")] (.fin 7)] ∧
    twoBalanceBackend.AccAddressFromBech32 orchestratorRequest.cudos_orchestrator_address =
      .ok "cosmos1qypqxpq9qcrsszg2pvxq6rs0zqg3yyc5lzv7xu" ∧
    gravityWrites uatomConfig twoBalanceBackend
        [("cudos_orchestrator_address", "cosmos1qypqxpq9qcrsszg2pvxq6rs0zqg3yyc5lzv7xu"),
         ("ethereum_orchestrator_address", "0x0000000000000000000000000000000000000001")] =
      .ok [Series.mk "gravity_cudos_orchestrator_balance"
             [("cudos_orchestrator_address", "cosmos1qypqxpq9qcrsszg2pvxq6rs0zqg3yyc5lzv7xu"),
              ("ethereum_orchestrator_address", "0x0000000000000000000000000000000000000001")]
             (.fin 5),
           Series.mk "gravity_cudos_orchestrator_balance"
             [("cudos_orchestrator_address", "cosmos1qypqxpq9qcrsszg2pvxq6rs0zqg3yyc5lzv7xu"),
              ("ethereum_orchestrator_address", "0x0000000000000000000000000000000000000001")]
             (.fin 7)] ∧
    GravityBridgeHandler uatomConfig twoBalanceBackend orchestratorRequest =
      .rendered [Series.mk "gravity_cudos_orchestrator_balance"
        [("cudos_orchestrator_address", "cosmos1qypqxpq9qcrsszg2pvxq6rs0zqg3yyc5lzv7xu"),
         ("ethereum_orchestrator_address", "0x0000000000000000000000000000000000000001")]
        (.fin 7)] := by
  have hw : generalWrites uatomConfig twoCoinPoolBackend =
      [Series.mk "cosmos_general_community_pool" [("denom", "uatom")] (.fin 5),
       Series.mk "cosmos_general_community_pool" [("denom", "uatom")] (.fin 7)] := by
    have e : generalWrites uatomConfig twoCoinPoolBackend
        = communityPoolTask uatomConfig twoCoinPoolBackend := by
      have a : stakingPoolTask twoCoinPoolBackend = [] := rfl
      have c : totalSupplyTask twoCoinPoolBackend = [] := rfl
      have d : tokenPriceTask uatomConfig twoCoinPoolBackend = [] := rfl
      unfold generalWrites
      rw [a, c, d, List.nil_append, List.append_nil, List.append_nil]
    rw [e, communityPoolTask_twoCoins uatomConfig twoCoinPoolBackend rfl rfl rfl]
  have hg := gravityWrites_twoBalances
    [("cudos_orchestrator_address", "cosmos1qypqxpq9qcrsszg2pvxq6rs0zqg3yyc5lzv7xu"),
     ("ethereum_orchestrator_address", "0x0000000000000000000000000000000000000001")]
  refine ⟨hw, ?_, rfl, ?_, ?_⟩
  · rw [GeneralHandler_eq_apply, hw]
    simp [Registry.apply, Registry.Set, newGeneralMetrics]
  · unfold gravityWrites
    rw [hg]
    rfl
  · have h := GravityBridgeHandler_queries_failed uatomConfig twoBalanceBackend
      orchestratorRequest "cosmos1qypqxpq9qcrsszg2pvxq6rs0zqg3yyc5lzv7xu"
      "connection refused" "connection refused" "connection refused" rfl rfl rfl rfl rfl rfl
    have e : twoBalanceBackend.HexToAddress orchestratorRequest.ethereum_orchestrator_address
        = "0x0000000000000000000000000000000000000001" := rfl
    rw [h, e, hg]
    simp [Registry.apply, Registry.Set]

/-- C12 (amended): within one request, gauge writes of different tasks never target the
same series (every task writes metrics of its own names), and writes of one task collide
only as follows. In `GeneralHandler` the community-pool task makes one write per coin of
the pool (amounts within the range of `sdk.Dec`), every one of them to the one series
`cosmos_general_community_pool` of the configured denom, valued by that coin's amount
over the coefficient; the rendered registry holds for that metric only the value of the
last coin (no series for an empty pool). The staking-pool task writes its two plain gauges
once each, the total-supply task writes one series per coin under the coin's own denom,
the token-price task writes a usd and a gbp series per token; these writes target pairwise
distinct series, none of them a community-pool series, and the rendered registry holds
every one of them, provided the supply's denoms and the configured token ids are pairwise
distinct. In `GravityBridgeHandler` the orchestrator-balance task makes one write per
balance that converts, every one of them to the one series of the address pair; when the
handler renders, the rendered registry holds for that metric only the value of the last
balance. The three external-chain tasks write at most one series each, pairwise distinct
and none of them an orchestrator-balance series. -/
theorem gauge_writes_collide_only_within (config : Config) (b : GeneralBackend)
    (g : GravityBackend) (r : GravityRequest) (labels : List (String × String)) :
    (∀ Pool, b.CommunityPool = .ok Pool →
      (∀ coin ∈ Pool, |coin.Amount| < 2 ^ 256 * 10 ^ 18) →
      communityPoolTask config b = Pool.map (fun coin =>
        Series.mk "cosmos_general_community_pool" [("denom", config.Denom)]
          (F64.div (F64.ofRat ((coin.Amount : ℚ) / 10 ^ 18)) config.DenomCoefficient)) ∧
      (GeneralHandler config b).filter
          (fun s => decide (s.name = "cosmos_general_community_pool")) =
        (match Pool.getLast? with
          | none => []
          | some coin =>
            [Series.mk "cosmos_general_community_pool" [("denom", config.Denom)]
              (F64.div (F64.ofRat ((coin.Amount : ℚ) / 10 ^ 18)) config.DenomCoefficient)])) ∧
    (∀ w ∈ communityPoolTask config b,
      w.key = ("cosmos_general_community_pool", [("denom", config.Denom)])) ∧
    (∀ BondedTokens NotBondedTokens, b.Pool = .ok (BondedTokens, NotBondedTokens) →
      stakingPoolTask b =
        [Series.mk "cosmos_general_bonded_tokens" [] (BigIntToFloat BondedTokens),
         Series.mk "cosmos_general_not_bonded_tokens" [] (BigIntToFloat NotBondedTokens)] ∧
      (GeneralHandler config b).filter
          (fun s => decide (s.name = "cosmos_general_bonded_tokens")) =
        [Series.mk "cosmos_general_bonded_tokens" [] (BigIntToFloat BondedTokens)] ∧
      (GeneralHandler config b).filter
          (fun s => decide (s.name = "cosmos_general_not_bonded_tokens")) =
        [Series.mk "cosmos_general_not_bonded_tokens" [] (BigIntToFloat NotBondedTokens)]) ∧
    (∀ Supply, b.TotalSupply = .ok Supply → (∀ coin ∈ Supply, |coin.Amount| < 2 ^ 256) →
      totalSupplyTask b = Supply.map (fun coin =>
        Series.mk "cosmos_general_supply_total" [("denom", coin.Denom)]
          (F64.ofRat coin.Amount))) ∧
    (∀ prices, lookupsOk b.coinGecko 0 config.TokenPrices prices →
      tokenPriceTask config b = priceWrites config.TokenPrices prices) ∧
    ((∀ w ∈ stakingPoolTask b, w.name = "cosmos_general_bonded_tokens" ∨
        w.name = "cosmos_general_not_bonded_tokens") ∧
      (∀ w ∈ totalSupplyTask b, w.name = "cosmos_general_supply_total") ∧
      (∀ w ∈ tokenPriceTask config b, w.name = "cosmos_token_price")) ∧
    ((∀ Supply, b.TotalSupply = .ok Supply → (Supply.map Coin.Denom).Nodup) →
      config.TokenPrices.Nodup →
      ((stakingPoolTask b ++ totalSupplyTask b ++ tokenPriceTask config b).map
          Series.key).Nodup ∧
      (∀ w ∈ stakingPoolTask b ++ totalSupplyTask b ++ tokenPriceTask config b,
        w.name ≠ "cosmos_general_community_pool") ∧
      (GeneralHandler config b).filter
          (fun s => decide (s.name = "cosmos_general_supply_total")) = totalSupplyTask b ∧
      (GeneralHandler config b).filter
          (fun s => decide (s.name = "cosmos_token_price")) = tokenPriceTask config b) ∧
    (∀ cudos Balances values w2 w3 w4,
      g.AccAddressFromBech32 r.cudos_orchestrator_address = .ok cudos →
      g.Dial = none → g.NewMain = none → g.AllBalances = .ok Balances →
      List.Forall₂ (fun balance v => ToNativeBalance config balance.Amount = .ok v)
        Balances values →
      ethOrchBalanceTask config g
        [("cudos_orchestrator_address", cudos),
         ("ethereum_orchestrator_address", g.HexToAddress r.ethereum_orchestrator_address)]
        = .ok w2 →
      ethERC20OrchBalanceTask config g
        [("cudos_orchestrator_address", cudos),
         ("ethereum_orchestrator_address", g.HexToAddress r.ethereum_orchestrator_address)]
        = .ok w3 →
      ethContractBalanceTask config g = .ok w4 →
      cudoOrchBalanceTask config g
        [("cudos_orchestrator_address", cudos),
         ("ethereum_orchestrator_address", g.HexToAddress r.ethereum_orchestrator_address)]
        = .ok (values.map (fun v => Series.mk "gravity_cudos_orchestrator_balance"
          [("cudos_orchestrator_address", cudos),
           ("ethereum_orchestrator_address",
             g.HexToAddress r.ethereum_orchestrator_address)] v)) ∧
      ∃ registry, GravityBridgeHandler config g r = .rendered registry ∧
        registry.filter (fun s => decide (s.name = "gravity_cudos_orchestrator_balance")) =
          (match values.getLast? with
            | none => []
            | some v => [Series.mk "gravity_cudos_orchestrator_balance"
                [("cudos_orchestrator_address", cudos),
                 ("ethereum_orchestrator_address",
                   g.HexToAddress r.ethereum_orchestrator_address)] v])) ∧
    (∀ w1 w2 w3 w4, cudoOrchBalanceTask config g labels = .ok w1 →
      ethOrchBalanceTask config g labels = .ok w2 →
      ethERC20OrchBalanceTask config g labels = .ok w3 →
      ethContractBalanceTask config g = .ok w4 →
      (∀ w ∈ w1, w.key = ("gravity_cudos_orchestrator_balance", labels)) ∧
      (w2 = [] ∨ ∃ v, w2 = [Series.mk "gravity_ethereum_orchestrator_balance" labels v]) ∧
      (w3 = [] ∨
        ∃ v, w3 = [Series.mk "gravity_ethereum_orchestrator_erc20_balance" labels v]) ∧
      (w4 = [] ∨ ∃ v, w4 = [Series.mk "gravity_ethereum_contract_balance" [] v]) ∧
      ((w2 ++ w3 ++ w4).map Series.key).Nodup ∧
      ∀ w ∈ w2 ++ w3 ++ w4, w.name ≠ "gravity_cudos_orchestrator_balance") := by
  refine ⟨?_, communityPoolTask_key config b, ?_, ?_, ?_,
    ⟨stakingPoolTask_name b, totalSupplyTask_name b,
      tokenPriceLoop_name b.coinGecko config.TokenPrices 0⟩,
    fun hs ht => ⟨otherGeneralWrites_nodup config b hs ht, otherGeneralWrites_name config b,
      GeneralHandler_supply_kept config b hs, GeneralHandler_price_kept config b ht⟩,
    ?_, ?_⟩
  · intro Pool hb hrange
    have hw := communityPoolTask_eq config b Pool hb hrange
    refine ⟨hw, ?_⟩
    rw [GeneralHandler_pool_series, hw]
    rw [Registry.apply_nil_same_key_map "cosmos_general_community_pool"
      [("denom", config.Denom)]
      (fun coin => F64.div (F64.ofRat ((coin.Amount : ℚ) / 10 ^ 18)) config.DenomCoefficient)
      Pool]
    cases Pool.getLast? <;> rfl
  · intro BondedTokens NotBondedTokens hb
    exact ⟨stakingPoolTask_eq b _ _ hb,
      GeneralHandler_staking_series config b BondedTokens NotBondedTokens hb⟩
  · intro Supply hb hrange
    exact totalSupplyTask_eq b Supply hb hrange
  · intro prices hok
    have := tokenPriceLoop_prefix b.coinGecko config.TokenPrices [] prices 0 hok
      (by intro t rest h; simp at h)
    simpa [tokenPriceTask] using this
  · intro cudos Balances values w2 w3 w4 haddr hd hn hb hv h2 h3 h4
    have h1 := cudoOrchBalanceTask_ok config g
      [("cudos_orchestrator_address", cudos),
       ("ethereum_orchestrator_address", g.HexToAddress r.ethereum_orchestrator_address)]
      Balances values hb hv
    refine ⟨h1, _, GravityBridgeHandler_all_ran config g r cudos _ w2 w3 w4 haddr hd hn h1
      h2 h3 h4, ?_⟩
    rw [cudoOrchBalance_series _ values w2 w3 w4
      (ethOrchBalanceTask_shape config g _ w2 h2)
      (ethERC20OrchBalanceTask_shape config g _ w3 h3)
      (ethContractBalanceTask_shape config g w4 h4)]
  · intro w1 w2 w3 w4 h1 h2 h3 h4
    refine ⟨cudoOrchBalanceTask_key config g labels w1 h1,
      ethOrchBalanceTask_shape config g labels w2 h2,
      ethERC20OrchBalanceTask_shape config g labels w3 h3,
      ethContractBalanceTask_shape config g w4 h4, ?_, ?_⟩
    · rcases ethOrchBalanceTask_shape config g labels w2 h2 with rfl | ⟨v2, rfl⟩ <;>
      rcases ethERC20OrchBalanceTask_shape config g labels w3 h3 with rfl | ⟨v3, rfl⟩ <;>
      rcases ethContractBalanceTask_shape config g w4 h4 with rfl | ⟨v4, rfl⟩ <;>
      simp [Series.key]
    · intro w hw
      simp only [List.mem_append] at hw
      rcases hw with (hw | hw) | hw
      · rcases ethOrchBalanceTask_shape config g labels w2 h2 with rfl | ⟨v2, rfl⟩
        · simp at hw
        · simp only [List.mem_singleton] at hw; subst hw; simp
      · rcases ethERC20OrchBalanceTask_shape config g labels w3 h3 with rfl | ⟨v3, rfl⟩
        · simp at hw
        · simp only [List.mem_singleton] at hw; subst hw; simp
      · rcases ethContractBalanceTask_shape config g w4 h4 with rfl | ⟨v4, rfl⟩
        · simp at hw
        · simp only [List.mem_singleton] at hw; subst hw; simp

/-- Witness for C12 (amended): with a staking pool, a community pool of two coins, a
supply of two coins and prices for two tokens, the community-pool task writes 5 and then
7 to the one series of the configured denom and the rendered registry holds only the 7,
while the eight other writes go to eight distinct series, all of them rendered; and an
orchestrator wallet with two balances leaves only the last one, 7, in the rendered
registry. -/
theorem gauge_writes_collide_only_within_witness :
    (∀ Supply, busyBackend.TotalSupply = .ok Supply → (Supply.map Coin.Denom).Nodup) ∧
    busyConfig.TokenPrices.Nodup ∧
    communityPoolTask busyConfig busyBackend =
      [Series.mk "cosmos_general_community_pool" [("denom", "uatom")] (.fin 5),
       Series.mk "cosmos_general_community_pool" [("denom", "uatom")] (.fin 7)] ∧
    (GeneralHandler busyConfig busyBackend).filter
        (fun s => decide (s.name = "cosmos_general_community_pool")) =
      [Series.mk "cosmos_general_community_pool" [("denom", "uatom")] (.fin 7)] ∧
    (stakingPoolTask busyBackend ++ totalSupplyTask busyBackend ++
        tokenPriceTask busyConfig busyBackend).map Series.key =
      [("cosmos_general_bonded_tokens", []),
       ("cosmos_general_not_bonded_tokens", []),
       ("cosmos_general_supply_total", [("denom", "acudos")]),
       ("cosmos_general_supply_total", [("denom", "uatom")]),
       ("cosmos_token_price", [("token", "bitcoin"), ("currency", "usd")]),
       ("cosmos_token_price", [("token", "bitcoin"), ("currency", "gbp")]),
       ("cosmos_token_price", [("token", "cudos"), ("currency", "usd")]),
       ("cosmos_token_price", [("token", "cudos"), ("currency", "gbp")])] ∧
    ((stakingPoolTask busyBackend ++ totalSupplyTask busyBackend ++
        tokenPriceTask busyConfig busyBackend).map Series.key).Nodup ∧
    (GeneralHandler busyConfig busyBackend).filter
        (fun s => decide (s.name = "cosmos_general_supply_total")) =
      totalSupplyTask busyBackend ∧
    (GeneralHandler busyConfig busyBackend).filter
        (fun s => decide (s.name = "cosmos_token_price")) =
      tokenPriceTask busyConfig busyBackend ∧
    ∃ registry,
      GravityBridgeHandler uatomConfig twoBalanceBackend orchestratorRequest =
        .rendered registry ∧
      registry.filter (fun s => decide (s.name = "gravity_cudos_orchestrator_balance")) =
        [Series.mk "gravity_cudos_orchestrator_balance"
          [("cudos_orchestrator_address", "cosmos1qypqxpq9qcrsszg2pvxq6rs0zqg3yyc5lzv7xu"),
           ("ethereum_orchestrator_address", "0x0000000000000000000000000000000000000001")]
          (.fin 7)] := by
  have T := gauge_writes_collide_only_within busyConfig busyBackend ethQueriesFailedBackend
    orchestratorRequest []
  have G := (gauge_writes_collide_only_within uatomConfig uatomBackend twoBalanceBackend
    orchestratorRequest []).2.2.2.2.2.2.2.1
    "cosmos1qypqxpq9qcrsszg2pvxq6rs0zqg3yyc5lzv7xu"
    [{ Denom := "acudos", Amount := 5000000 }, { Denom := "stake", Amount := 7000000 }]
    [.fin 5, .fin 7] [] [] [] rfl rfl rfl rfl
    (List.Forall₂.cons ToNativeBalance_uatom
      (List.Forall₂.cons ToNativeBalance_uatom_seven List.Forall₂.nil))
    rfl rfl rfl
  have hs : ∀ Supply, busyBackend.TotalSupply = .ok Supply →
      (Supply.map Coin.Denom).Nodup := by
    intro Supply h
    have e : busyBackend.TotalSupply = .ok [{ Denom := "acudos", Amount := 5000000 },
      { Denom := "uatom", Amount := 7000000 }] := rfl
    rw [e] at h
    simp only [Except.ok.injEq] at h
    subst h
    simp
  have ht : busyConfig.TokenPrices.Nodup := by decide
  have hP := T.1 [{ Denom := "acudos", Amount := 5000000000000000000000000 },
      { Denom := "uatom", Amount := 7000000000000000000000000 }] rfl (by
    intro coin hcoin
    simp only [List.mem_cons, List.mem_singleton, List.not_mem_nil, or_false] at hcoin
    rcases hcoin with rfl | rfl <;> norm_num)
  have hc : busyConfig.DenomCoefficient = .fin 1000000 := rfl
  have hd : busyConfig.Denom = "uatom" := rfl
  have h5 := div_million 5 (by norm_num) (by norm_num) 5000000000000000000000000
    (by norm_num)
  have h7 := div_million 7 (by norm_num) (by norm_num) 7000000000000000000000000
    (by norm_num)
  have hstake := (T.2.2.1 100 50 rfl).1
  have hsupply := T.2.2.2.1 [{ Denom := "acudos", Amount := 5000000 },
      { Denom := "uatom", Amount := 7000000 }] rfl (by
    intro coin hcoin
    simp only [List.mem_cons, List.mem_singleton, List.not_mem_nil, or_false] at hcoin
    rcases hcoin with rfl | rfl <;> norm_num)
  have hprice := T.2.2.2.2.1 [(.fin 50000, .fin 40000), (.fin 50000, .fin 40000)]
    ⟨rfl, rfl, trivial⟩
  have hN := T.2.2.2.2.2.2.1 hs ht
  refine ⟨hs, ht, ?_, ?_, ?_, hN.1, hN.2.2.1, hN.2.2.2, ?_⟩
  · have h := hP.1
    simp only [List.map_cons, List.map_nil, hc, hd, h5, h7] at h
    rw [h]
    norm_num
  · have h := hP.2
    simp only [List.getLast?_cons_cons, List.getLast?_singleton, hc, hd, h7] at h
    rw [h]
    norm_num
  · rw [hstake, hsupply, hprice]
    have e : busyConfig.TokenPrices = ["bitcoin", "cudos"] := rfl
    rw [e]
    simp [priceWrites, Series.key]
  · obtain ⟨h1, registry, h2, h3⟩ := G
    refine ⟨registry, h2, ?_⟩
    rw [h3]
    have e : twoBalanceBackend.HexToAddress orchestratorRequest.ethereum_orchestrator_address
        = "0x0000000000000000000000000000000000000001" := rfl
    rw [e]
    rfl

end CosmosExporter
